import Mathlib

/-!
Verification of the gtarfile repository (a Go port of Python's tarfile
module) against its natural-language specification.

The development shallowly embeds the relevant Go source files:
  * tarfile/utils.go    — numeric/string codec (nts, nti, itn, stn, calcChecksum)
  * tarfile/tarinfo.go  — the TarInfo record, FromBuf (decode), ToBuf and the
                          createXxxHeader family (encode), posixSplitName
  * the TarFile engine  — FromTarFile, next, load, GetMembers (read path)
  * ExFileObject.Read   — member payload reads

Go strings are modelled as lists of byte values (`List Nat`, entries < 256 in
every reachable state; the library never decodes them, its `nts` returns raw
bytes).  Go `int`/`int64` are modelled as `Int`; the one place where int64
wraparound is observable on inputs exercised here (the base-256 accumulator of
`nti` and the negation in `itn`) models two's-complement wraparound explicitly
via `wrap64`.  `math.Pow(8,k)` and `math.Pow(256,k)` are powers of two, exactly
representable in float64; the model uses their exact integer values.

Failure is modelled with `Except`: `GErr.goPanic` stands for a Go runtime
panic (failed interface conversion / index out of range), the other
constructors mirror the error taxonomy of tarfile/errors.go.
-/

set_option maxRecDepth 4096

namespace Gtar

/-- Byte-list literal helper: the bytes of an ASCII string. -/
def s2b (s : String) : List Nat := s.toList.map Char.toNat

/-- Go slice `l[a:b]`. -/
def slice (l : List Nat) (a b : Nat) : List Nat := (l.drop a).take (b - a)

/-- Error taxonomy: `goPanic` models a Go runtime panic, `goError` a plain
`fmt.Errorf` value, the remaining constructors the HeaderError hierarchy of
tarfile/errors.go plus ReadError. -/
inductive GErr where
  | goPanic
  | goError
  | emptyHeader
  | truncatedHeader
  | eofHeader
  | invalidHeader
  | readError
deriving DecidableEq

/- Constants from the source (truncated constant block of the repository). -/

def BLOCKSIZE : Nat := 512
def RECORDSIZE : Nat := BLOCKSIZE * 20
def LENGTH_NAME : Nat := 100
def LENGTH_LINK : Nat := 100
def LENGTH_PFX : Nat := 155

def USTAR_FORMAT : Nat := 0
def GNU_FORMAT : Nat := 1
def PAX_FORMAT : Nat := 2
def DEFAULT_FORMAT : Nat := PAX_FORMAT

/-- `GNU_MAGIC = "ustar  \x00"` (8 bytes). -/
def GNU_MAGIC : List Nat := [117, 115, 116, 97, 114, 32, 32, 0]
/-- `POSIX_MAGIC = "ustar\x00\x00"` (7 bytes, as in the source). -/
def POSIX_MAGIC : List Nat := [117, 115, 116, 97, 114, 0, 0]

def REGTYPE : List Nat := [48]
def AREGTYPE : List Nat := [0]
def LNKTYPE : List Nat := [49]
def SYMTYPE : List Nat := [50]
def CHRTYPE : List Nat := [51]
def BLKTYPE : List Nat := [52]
def DIRTYPE : List Nat := [53]
def FIFOTYPE : List Nat := [54]
def CONTTYPE : List Nat := [55]
def GNUTYPE_LONGNAME : List Nat := [76]
def GNUTYPE_LONGLINK : List Nat := [75]
def GNUTYPE_SPARSE : List Nat := [83]
def XHDTYPE : List Nat := [120]
def XGLTYPE : List Nat := [103]

def REGULAR_TYPES : List (List Nat) := [REGTYPE, AREGTYPE, CONTTYPE, GNUTYPE_SPARSE]
def GNU_TYPES : List (List Nat) := [GNUTYPE_LONGNAME, GNUTYPE_LONGLINK, GNUTYPE_SPARSE]

/- Numeric/string codec (tarfile/utils.go). -/

/-- `nts`: bytes up to the first NUL (the source's encoding handling is a TODO
that returns the raw bytes). -/
def nts (s : List Nat) : List Nat := s.takeWhile (· ≠ 0)

/-- `stn`: truncate or NUL-pad to exactly `length` bytes. -/
def stn (s : List Nat) (length : Nat) : List Nat :=
  s.take length ++ List.replicate (length - (s.take length).length) 0

/-- Two's-complement wraparound of Go int64 arithmetic. -/
def wrap64 (x : Int) : Int := (x + 2 ^ 63) % 2 ^ 64 - 2 ^ 63

/-- `strings.TrimSpace` on the ASCII whitespace bytes (the only whitespace that
can occur in a header's numeric fields; multi-byte Unicode whitespace is not
modelled). -/
def isSpaceByte (b : Nat) : Bool := b = 32 || (9 ≤ b && b ≤ 13)

def trimSpace (s : List Nat) : List Nat :=
  ((s.dropWhile isSpaceByte).reverse.dropWhile isSpaceByte).reverse

/-- `strconv.ParseInt(s, 8, 64)`: optional sign, a nonempty run of octal
digits, 64-bit range check.  `none` models a returned error. -/
def parseOctal64 (s : List Nat) : Option Int :=
  let sign : Bool × List Nat :=
    match s with
    | b :: t => if b = 43 then (false, t) else if b = 45 then (true, t) else (false, b :: t)
    | [] => (false, [])
  let ds := sign.2
  if ds = [] then none
  else if ds.all (fun b => 48 ≤ b && b ≤ 55) then
    let v : Nat := ds.foldl (fun a b => a * 8 + (b - 48)) 0
    if sign.1 then (if v ≤ 2 ^ 63 then some (-(v : Int)) else none)
    else (if v ≤ 2 ^ 63 - 1 then some (v : Int) else none)
  else none

/-- `strconv.ParseUint(s, 10, 64)`: nonempty run of decimal digits, no sign,
64-bit range check.  `none` models a returned error. -/
def parseUint64 (s : List Nat) : Option Nat :=
  if s = [] then none
  else if s.all (fun b => 48 ≤ b && b ≤ 57) then
    let v : Nat := s.foldl (fun a b => a * 10 + (b - 48)) 0
    if v ≤ 2 ^ 64 - 1 then some v else none
  else none

/-- `nti`: decode a numeric field — base-256 when the first byte is 0x80/0xFF
(the accumulator is Go int64 arithmetic, hence `wrap64`), otherwise
NUL/space-trimmed octal text; a blank field is zero.  Indexing `s[0]` on an
empty slice panics in Go. -/
def nti (s : List Nat) : Except GErr Int :=
  match s with
  | [] => .error .goPanic
  | b0 :: rest =>
    if b0 = 0x80 ∨ b0 = 0xFF then
      let m := (rest.map (fun (b : Nat) => (b : Int))).foldl
        (fun a b => wrap64 (a * 256 + b)) 0
      .ok (if b0 = 0xFF then wrap64 (-m) else m)
    else
      let str := trimSpace (nts (b0 :: rest))
      if str = [] then .ok 0
      else
        match parseOctal64 str with
        | some v => .ok v
        | none => .error .invalidHeader

/-- Fuel-indexed digit recursion (structural, so that concrete headers reduce
inside the kernel); `n ≤ fuel` keeps the fuel from running out, and the
fuel-0 branch coincides with the base case whenever it is reached. -/
def octalStrF : Nat → Nat → List Nat
  | 0, n => [48 + n % 8]
  | fuel + 1, n => if n < 8 then [48 + n] else octalStrF fuel (n / 8) ++ [48 + n % 8]

/-- Octal digits of `n` (ASCII, most significant first), as produced by
`fmt.Sprintf("%o", n)` for a non-negative value. -/
def octalStr (n : Nat) : List Nat := octalStrF n n

/-- `fmt.Sprintf("%0*o", w, n)`: zero-pad the octal digits to width `w`. -/
def octalPad (w : Nat) (n : Nat) : List Nat :=
  List.replicate (w - (octalStr n).length) 48 ++ octalStr n

/-- The big-endian byte loop of `itn`: `buf[i] = byte(n & 0xFF); n >>= 8` for
`i = digits-1 .. 1`, on a (possibly negative) int64 value. -/
def beBytesInt : Nat → Int → List Nat
  | 0, _ => []
  | k + 1, n => beBytesInt k (Int.fdiv n 256) ++ [(n % 256).toNat]

/-- `itn(n, digits, format)`: zero-padded octal text with a terminating NUL
when the value fits, else (GNU format only) a base-256 field whose first byte
is 0x80 (non-negative) or 0xFF (negative, magnitude negated with int64
wraparound), else an overflow error.  `math.Pow(8, digits-1)` and
`math.Pow(256, digits-1)` are modelled by the exact powers. -/
def itn (n : Int) (digits : Nat) (format : Nat) : Except GErr (List Nat) :=
  if 0 ≤ n ∧ n < (8 : Int) ^ (digits - 1) then
    .ok (octalPad (digits - 1) n.toNat ++ [0])
  else if format = GNU_FORMAT ∧ -((256 : Int) ^ (digits - 1)) ≤ n ∧
      n < (256 : Int) ^ (digits - 1) then
    let sign : Nat := if 0 ≤ n then 0x80 else 0xFF
    let n2 : Int := if 0 ≤ n then n else wrap64 (-n)
    .ok (sign :: beBytesInt (digits - 1) n2)
  else .error .goError

/-- The indexed loop of `calcChecksum`: sum all bytes, skipping offsets
148..155 (the checksum field). -/
def calcSumFrom : Nat → List Nat → Int
  | _, [] => 0
  | i, b :: t => (if 148 ≤ i ∧ i < 156 then 0 else (b : Int)) + calcSumFrom (i + 1) t

/-- `calcChecksum`: 256 (eight ASCII spaces) plus the sum of all bytes outside
the checksum field. -/
def calcChecksum (buf : List Nat) : Int := 256 + calcSumFrom 0 buf

/- The TarInfo record (tarfile/tarinfo.go). -/

/-- In-memory archive member.  `Mtime` is the Unix seconds of the Go
`time.Time`; `Sparse` is `none` for Go's nil slice. -/
structure TarInfo where
  Name : List Nat
  Mode : Int
  UID : Int
  GID : Int
  Size : Int
  Mtime : Int
  Chksum : Int
  Typ : List Nat
  Linkname : List Nat
  Uname : List Nat
  Gname : List Nat
  DevMajor : Int
  DevMinor : Int
  Offset : Int
  OffsetData : Int
  PaxHeaders : List (List Nat × List Nat)
  Sparse : Option (List (Int × Int))
deriving DecidableEq

/-- `NewTarInfo`: defaults as in the source (mode 0644, type REGTYPE,
`time.Unix(0,0)`, empty PAX map, nil sparse slice). -/
def NewTarInfo (name : List Nat) : TarInfo :=
  { Name := name, Mode := 420, UID := 0, GID := 0, Size := 0, Mtime := 0,
    Chksum := 0, Typ := REGTYPE, Linkname := [], Uname := [], Gname := [],
    DevMajor := 0, DevMinor := 0, Offset := 0, OffsetData := 0,
    PaxHeaders := [], Sparse := none }

def TarInfo.IsDir (ti : TarInfo) : Bool := ti.Typ = DIRTYPE

/-- Does a byte string end with `/`? (`strings.HasSuffix(s, "/")`). -/
def endsSlash (s : List Nat) : Bool := s.getLast? = some 47

/-- `strings.TrimSuffix(s, "/")`. -/
def trimSlash (s : List Nat) : List Nat :=
  if endsSlash s then s.dropLast else s

/-- The inline sparse-map loop of `FromBuf`: up to four (offset, numbytes)
pairs starting at offset 386, stopping at a (0,0) pair. -/
def sparseLoop (buf : List Nat) : Nat → Nat → List (Int × Int) →
    Except GErr (List (Int × Int))
  | 0, _, acc => .ok acc
  | k + 1, pos, acc => do
    let off ← nti (slice buf pos (pos + 12))
    let num ← nti (slice buf (pos + 12) (pos + 24))
    if off = 0 ∧ num = 0 then .ok acc
    else sparseLoop buf k (pos + 24) (acc ++ [(off, num)])

/-- `FromBuf`: decode a header block.  Classification (empty / truncated /
end-of-archive) precedes any field parsing; then the stored checksum is parsed
and compared against the recomputation; then the fixed fields are decoded in
source order, the legacy directory reclassification, the GNU sparse region,
the directory-slash strip and the prefix join are applied. -/
def FromBuf (buf : List Nat) : Except GErr TarInfo :=
  if buf.length = 0 then .error .emptyHeader
  else if buf.length ≠ BLOCKSIZE then .error .truncatedHeader
  else if buf.count 0 = BLOCKSIZE then .error .eofHeader
  else do
    let chksum ← nti (slice buf 148 156)
    if chksum ≠ calcChecksum buf then .error .invalidHeader
    else do
      let name := nts (slice buf 0 100)
      let mode ← nti (slice buf 100 108)
      let uid ← nti (slice buf 108 116)
      let gid ← nti (slice buf 116 124)
      let size ← nti (slice buf 124 136)
      let mtime ← nti (slice buf 136 148)
      let typ0 := slice buf 156 157
      let linkname := nts (slice buf 157 257)
      let uname := nts (slice buf 265 297)
      let gname := nts (slice buf 297 329)
      let devMajor ← nti (slice buf 329 337)
      let devMinor ← nti (slice buf 337 345)
      let pfx := nts (slice buf 345 500)
      let typ1 := if typ0 = AREGTYPE ∧ endsSlash name then DIRTYPE else typ0
      let base : TarInfo :=
        { NewTarInfo [] with
          Name := name, Mode := mode, UID := uid, GID := gid, Size := size,
          Mtime := mtime, Chksum := chksum, Typ := typ1,
          Linkname := linkname, Uname := uname, Gname := gname,
          DevMajor := devMajor, DevMinor := devMinor }
      let withSparse : Except GErr TarInfo :=
        if typ1 = GNUTYPE_SPARSE then do
          let structs ← sparseLoop buf 4 386 []
          let isExt := buf.getD 482 0 ≠ 0
          let origSize ← nti (slice buf 483 495)
          if structs ≠ [] ∨ isExt then
            .ok { base with
                  Sparse := if structs = [] then none else some structs,
                  Size := origSize }
          else .ok base
        else .ok base
      let ti ← withSparse
      let ti := if ti.IsDir then { ti with Name := trimSlash ti.Name } else ti
      let ti := if pfx ≠ [] ∧ ¬ (ti.Typ ∈ GNU_TYPES) then
          { ti with Name := pfx ++ [47] ++ ti.Name } else ti
      .ok ti

/- The dynamic `map[string]interface{}` used by GetInfo/createHeader. -/

/-- A Go `interface{}` value as stored in the info map: the source stores
`int`, `int64` and `string` values.  A type assertion against the wrong
dynamic type (or against a missing key, i.e. a nil interface) panics. -/
inductive GoVal where
  | vInt (n : Int)
  | vInt64 (n : Int)
  | vStr (s : List Nat)
deriving DecidableEq

/-- The info map, as an association list (Go map reads are modelled by the
first matching key; `set` replaces in place). -/
abbrev Info := List (String × GoVal)

/-- Go map read: the value under the (unique) occurrence of the key. -/
def Info.get : Info → String → Option GoVal
  | [], _ => none
  | p :: t, k => if p.1 = k then some p.2 else Info.get t k

/-- Go map write: replace the entry in place, or append a new one. -/
def Info.set : Info → String → GoVal → Info
  | [], k, v => [(k, v)]
  | p :: t, k, v => if p.1 = k then (k, v) :: t else p :: Info.set t k v

/-- Go `x.(string)`: panics unless the dynamic type is string. -/
def asStr : Option GoVal → Except GErr (List Nat)
  | some (.vStr s) => .ok s
  | _ => .error .goPanic

/-- Go `x.(int)`: panics unless the dynamic type is int (an int64 value does
not satisfy an int assertion). -/
def asInt : Option GoVal → Except GErr Int
  | some (.vInt n) => .ok n
  | _ => .error .goPanic

/-- Go `x.(int64)`. -/
def asInt64 : Option GoVal → Except GErr Int
  | some (.vInt64 n) => .ok n
  | _ => .error .goPanic

/-- `GetInfo`: the attribute map.  Note the dynamic types: uid/gid/chksum/
devmajor/devminor are Go `int`, mode/size/mtime (`Unix()`) are `int64`,
the rest strings.  `mode & 07777` on two's-complement int64 is the
non-negative remainder mod 0o10000.  A directory name gets a trailing
slash. -/
def GetInfo (ti : TarInfo) : Info :=
  let info : Info :=
    [("name", .vStr ti.Name), ("mode", .vInt64 (ti.Mode % 4096)),
     ("uid", .vInt ti.UID), ("gid", .vInt ti.GID), ("size", .vInt64 ti.Size),
     ("mtime", .vInt64 ti.Mtime), ("chksum", .vInt ti.Chksum),
     ("type", .vStr ti.Typ), ("linkname", .vStr ti.Linkname),
     ("uname", .vStr ti.Uname), ("gname", .vStr ti.Gname),
     ("devmajor", .vInt ti.DevMajor), ("devminor", .vInt ti.DevMinor)]
  if ti.Typ = DIRTYPE ∧ ¬ endsSlash ti.Name then
    Info.set info "name" (.vStr (ti.Name ++ [47]))
  else info

/-- The conditional devmajor/devminor serialization of `createHeader`: the
numeric field for a character/block device, an all-NUL field otherwise. -/
def devField (info : Info) (format : Nat) (key : String) (hasDev : Prop)
    [Decidable hasDev] : Except GErr (List Nat) :=
  if hasDev then do
    itn (← asInt (Info.get info key)) 8 format
  else pure (stn [] 8)

/-- `createHeader`: serialize the 15 fixed fields into a block, pad to 512
bytes, then overwrite bytes 148..155 with `fmt.Sprintf("%06o\x00 ", chksum)`.
All map reads go through type assertions; a missing key (notably "prefix",
which GetInfo never stores) panics.  The nil-check loop over parts[1..5] can
never fire (those are non-nil whenever no error was returned) and is omitted. -/
def createHeader (info : Info) (format : Nat) : Except GErr (List Nat) := do
  let typV := Info.get info "type"
  let hasDev := typV = some (.vStr CHRTYPE) ∨ typV = some (.vStr BLKTYPE)
  let devMajor ← devField info format "devmajor" hasDev
  let devMinor ← devField info format "devminor" hasDev
  let filetype ← asStr typV
  let p0 := stn (← asStr (Info.get info "name")) 100
  let p1 ← itn (← asInt64 (Info.get info "mode")) 8 format
  let p2 ← itn (← asInt (Info.get info "uid")) 8 format
  let p3 ← itn (← asInt (Info.get info "gid")) 8 format
  let p4 ← itn (← asInt64 (Info.get info "size")) 12 format
  let p5 ← itn (← asInt64 (Info.get info "mtime")) 12 format
  let p6 := List.replicate 8 32
  let p8 := stn (← asStr (Info.get info "linkname")) 100
  let p9 ← asStr (Info.get info "magic")
  let p10 := stn (← asStr (Info.get info "uname")) 32
  let p11 := stn (← asStr (Info.get info "gname")) 32
  let p14 := stn (← asStr (Info.get info "prefix")) 155
  let joined := p0 ++ p1 ++ p2 ++ p3 ++ p4 ++ p5 ++ p6 ++ filetype ++ p8 ++
    p9 ++ p10 ++ p11 ++ devMajor ++ devMinor ++ p14
  let buf := joined ++ List.replicate (BLOCKSIZE - joined.length) 0
  let cb := octalPad 6 (calcChecksum buf).toNat ++ [0, 32]
  .ok ((buf.take 148 ++ cb ++ buf.drop 156).take BLOCKSIZE)

/-- `strings.Split(name, "/")`. -/
def splitOnByte (sep : Nat) : List Nat → List (List Nat)
  | [] => [[]]
  | b :: t =>
    match splitOnByte sep t with
    | [] => [[]]
    | h :: r => if b = sep then [] :: h :: r else (b :: h) :: r

/-- `strings.Join(parts, "/")` (for a general separator). -/
def joinWith (sep : List Nat) : List (List Nat) → List Nat
  | [] => []
  | [x] => x
  | x :: y :: t => x ++ sep ++ joinWith sep (y :: t)

/-- The loop of `posixSplitName`: for i = 1 .. len(components)-1, take the
first i components as the prefix and the rest as the name, succeeding at the
first split meeting both length bounds.  The loop is fuel-indexed (structural)
with fuel `cs.length - i`, which is exactly the number of remaining
iterations. -/
def splitLoop (cs : List (List Nat)) : Nat → Nat → Except GErr (List Nat × List Nat)
  | 0, _ => .error .goError
  | fuel + 1, i =>
    if i < cs.length then
      let pfx := joinWith [47] (cs.take i)
      let rest := joinWith [47] (cs.drop i)
      if pfx.length ≤ LENGTH_PFX ∧ rest.length ≤ LENGTH_NAME then .ok (pfx, rest)
      else splitLoop cs fuel (i + 1)
    else .error .goError

def posixSplitName (name : List Nat) : Except GErr (List Nat × List Nat) :=
  let cs := splitOnByte 47 name
  splitLoop cs cs.length 1

/-- `createUstarHeader`: POSIX magic, reject long linknames, split long names
into prefix + name (storing both into the map), then serialize. -/
def createUstarHeader (info : Info) : Except GErr (List Nat) := do
  let info := Info.set info "magic" (.vStr POSIX_MAGIC)
  let linknameS ← asStr (Info.get info "linkname")
  if LENGTH_LINK < linknameS.length then .error .goError
  else do
    let nameS ← asStr (Info.get info "name")
    if LENGTH_NAME < nameS.length then do
      let pr ← posixSplitName nameS
      createHeader
        (Info.set (Info.set info "prefix" (.vStr pr.1)) "name" (.vStr pr.2))
        USTAR_FORMAT
    else createHeader info USTAR_FORMAT

/-- `createPayload`: pad to the next block boundary. -/
def createPayload (payload : List Nat) : List Nat :=
  if payload.length % BLOCKSIZE > 0 then
    payload ++ List.replicate (BLOCKSIZE - payload.length % BLOCKSIZE) 0
  else payload

/-- `createGnuLongHeader`: the synthetic `././@LongLink` block pair.  Its info
map carries only name/type/size/magic, so the serialization panics at the
first missing field. -/
def createGnuLongHeader (name : List Nat) (typ : List Nat) : Except GErr (List Nat) := do
  let nameBytes := name ++ [0]
  let info : Info :=
    [("name", .vStr (s2b "././@LongLink")), ("type", .vStr typ),
     ("size", .vInt64 nameBytes.length), ("magic", .vStr GNU_MAGIC)]
  let header ← createHeader info USTAR_FORMAT
  .ok (header ++ createPayload nameBytes)

/-- `createGnuHeader`: long-link and long-name continuation block pairs when
the respective field exceeds 100 bytes, then the primary header. -/
def createGnuHeader (info : Info) : Except GErr (List Nat) := do
  let info := Info.set info "magic" (.vStr GNU_MAGIC)
  let linknameS ← asStr (Info.get info "linkname")
  let buf1 ← if LENGTH_LINK < linknameS.length then
      createGnuLongHeader linknameS GNUTYPE_LONGLINK
    else pure []
  let nameS ← asStr (Info.get info "name")
  let buf2 ← if LENGTH_NAME < nameS.length then
      createGnuLongHeader nameS GNUTYPE_LONGNAME
    else pure []
  let header ← createHeader info GNU_FORMAT
  .ok (buf1 ++ buf2 ++ header)

/- PAX serialization. -/

/-- The PAX extended-attribute map (Go map[string]string). -/
abbrev PaxMap := List (List Nat × List Nat)

def PaxMap.has (m : PaxMap) (k : List Nat) : Bool := m.any (fun p => p.1 == k)

/-- Go map write on the PAX map: replace in place, or append. -/
def PaxMap.set : PaxMap → List Nat → List Nat → PaxMap
  | [], k, v => [(k, v)]
  | p :: t, k, v => if p.1 = k then (k, v) :: t else p :: PaxMap.set t k v

/-- Fuel-indexed decimal digit recursion (structural; `n ≤ fuel` suffices). -/
def decStrF : Nat → Nat → List Nat
  | 0, n => [48 + n % 10]
  | fuel + 1, n => if n < 10 then [48 + n] else decStrF fuel (n / 10) ++ [48 + n % 10]

/-- `strconv.Itoa` digits of a natural number. -/
def decStr (n : Nat) : List Nat := decStrF n n

/-- `strconv.Itoa` / `strconv.FormatInt(n, 10)`. -/
def decStrInt (n : Int) : List Nat :=
  if n < 0 then 45 :: decStr (-n).toNat else decStr n.toNat

/-- The string-field table of `createPaxHeader`, in source order:
(info key, PAX key, length limit). -/
def paxFields : List (String × List Nat × Nat) :=
  [("name", s2b "path", LENGTH_NAME), ("linkname", s2b "linkpath", LENGTH_LINK),
   ("uname", s2b "uname", 32), ("gname", s2b "gname", 32)]

/-- The string-field loop of `createPaxHeader`: skip keys already present,
move all-decimal values (the source's ASCII heuristic) and over-long values
into the PAX map. -/
def paxFieldsLoop (info : Info) : PaxMap → List (String × List Nat × Nat) →
    Except GErr PaxMap
  | ph, [] => .ok ph
  | ph, f :: fs => do
    let n ← asStr (Info.get info f.1)
    let ph' :=
      if PaxMap.has ph f.2.1 then ph
      else if (parseUint64 n).isSome then PaxMap.set ph f.2.1 n
      else if f.2.2 < n.length then PaxMap.set ph f.2.1 n
      else ph
    paxFieldsLoop info ph' fs

/-- Field widths of the numeric-field map `{"uid": 8, "gid": 8, "size": 12,
"mtime": 12}` in `createPaxHeader`. -/
def paxDigitsOf (name : String) : Nat :=
  if name = "uid" ∨ name = "gid" then 8 else 12

/-- The numeric-field loop of `createPaxHeader`.  Go iterates the four-entry
map in unspecified order, so the order is a parameter; mtime is skipped
(handled separately).  The `info[name].(int)` assertion panics on "size",
whose GetInfo value is an int64. -/
def paxNumLoop : Info × PaxMap → List String → Except GErr (Info × PaxMap)
  | st, [] => .ok st
  | st, name :: rest =>
    if name = "mtime" then paxNumLoop st rest
    else do
      let val ← asInt (Info.get st.1 name)
      if val < 0 ∨ (8 : Int) ^ (paxDigitsOf name - 1) ≤ val then
        paxNumLoop
          (Info.set st.1 name (.vInt 0),
           if PaxMap.has st.2 (s2b name) then st.2
           else PaxMap.set st.2 (s2b name) (decStrInt val)) rest
      else paxNumLoop st rest

/-- The separate mtime overflow block of `createPaxHeader`. -/
def paxMtimeStep (st : Info × PaxMap) : Except GErr (Info × PaxMap) := do
  let mtime ← asInt64 (Info.get st.1 "mtime")
  if mtime < 0 ∨ (8 : Int) ^ 11 ≤ mtime then
    .ok (Info.set st.1 "mtime" (.vInt64 0),
         if PaxMap.has st.2 (s2b "mtime") then st.2
         else PaxMap.set st.2 (s2b "mtime") (decStrInt mtime))
  else .ok st

/-- The fixed-point length computation of a PAX record: n starts at 0 and is
replaced by `l + len(Itoa(n))` until stable.  The iteration stabilizes after
at most a few steps; the fuel is comfortably larger. -/
def paxLenGo (l n : Nat) : Nat → Nat
  | 0 => n
  | fuel + 1 =>
    let p := l + (decStr n).length
    if p = n then n else paxLenGo l p fuel

def paxLenFix (l : Nat) : Nat := paxLenGo l 0 64

/-- `createPaxGenericHeader`: length-prefixed key=value records (preceded by a
BINARY hdrcharset record when some value is not all-decimal), then a synthetic
`././@PaxHeader` block pair.  Go iterates the map in unspecified order; the
insertion order is used here (no claim reaches a multi-record map).  The
header's info map again lacks the fixed numeric fields, so serializing it
panics. -/
def createPaxGenericHeader (ph : PaxMap) (typ : List Nat) : Except GErr (List Nat) := do
  let binary := ph.any (fun kv => (parseUint64 kv.2).isNone)
  let records0 := if binary then s2b "21 hdrcharset=BINARY\n" else []
  let records := records0 ++ (ph.map (fun kv =>
      let l := kv.1.length + kv.2.length + 3
      let n := paxLenFix l
      decStr n ++ [32] ++ kv.1 ++ [61] ++ kv.2 ++ [10])).flatten
  let info : Info :=
    [("name", .vStr (s2b "././@PaxHeader")), ("type", .vStr typ),
     ("size", .vInt64 records.length), ("magic", .vStr POSIX_MAGIC)]
  let header ← createHeader info USTAR_FORMAT
  .ok (header ++ createPayload records)

/-- `createPaxHeader`: move oversized/non-portable fields into the PAX map
(string fields first, then the numeric fields in map-iteration order `order`,
then mtime), emit the extended-header block pair when the map is nonempty,
then the primary ustar-compatible header. -/
def createPaxHeader (ti : TarInfo) (info : Info) (order : List String) :
    Except GErr (List Nat) := do
  let info := Info.set info "magic" (.vStr POSIX_MAGIC)
  let ph1 ← paxFieldsLoop info ti.PaxHeaders paxFields
  let st1 ← paxNumLoop (info, ph1) order
  let st2 ← paxMtimeStep st1
  let buf ← if 0 < st2.2.length then createPaxGenericHeader st2.2 XHDTYPE
    else pure []
  let header ← createHeader st2.1 USTAR_FORMAT
  .ok (buf ++ header)

/-- `ToBuf`: dispatch on the format.  The nil-check loop over the info map
never fires (GetInfo stores a value under every key).  `order` is the
unspecified Go map-iteration order of the PAX numeric-field loop. -/
def ToBuf (ti : TarInfo) (format : Nat) (order : List String) :
    Except GErr (List Nat) :=
  let info := GetInfo ti
  if format = USTAR_FORMAT then createUstarHeader info
  else if format = GNU_FORMAT then createGnuHeader info
  else if format = PAX_FORMAT then createPaxHeader ti info order
  else .error .goError

/- The read-side engine (TarFile.next / load / GetMembers). -/

/-- Read-side engine state: the archive bytes, the stream cursor (`pos`, the
actual file position), the engine's `offset` bookkeeping, the IgnoreZeros and
Stream options, the member index, the buffered first member and the
loaded flag. -/
structure TFState where
  data : List Nat
  pos : Nat
  offset : Int
  ignoreZeros : Bool
  stream : Bool
  members : List TarInfo
  firstMember : Option TarInfo
  loaded : Bool
deriving DecidableEq

/-- `FromTarFile`: read one block at the stream cursor (0 bytes → EOFHeader,
a short read → TruncatedHeader), decode it, stamp Offset/OffsetData with the
engine offset and advance the engine offset by one block.  The stream cursor
advances by the bytes read in every case. -/
def fromTarFile (tf : TFState) : Except GErr TarInfo × TFState :=
  if tf.data.length - tf.pos = 0 then (.error .eofHeader, tf)
  else if tf.data.length - tf.pos < BLOCKSIZE then
    (.error .truncatedHeader, { tf with pos := tf.data.length })
  else
    match FromBuf (slice tf.data tf.pos (tf.pos + BLOCKSIZE)) with
    | .error e => (.error e, { tf with pos := tf.pos + BLOCKSIZE })
    | .ok ti =>
      (.ok { ti with Offset := tf.offset, OffsetData := tf.offset + BLOCKSIZE },
       { tf with pos := tf.pos + BLOCKSIZE, offset := tf.offset + BLOCKSIZE })

/-- The epilogue of `next`: a non-nil member is appended to the index (unless
in stream mode); a nil result (or stream mode) sets the loaded flag.  The
return value is `ok (some ti)` for a member, `ok none` for Go's `(nil, nil)`
no-more-members sentinel. -/
def nextFinish (t : Option TarInfo) (tf : TFState) :
    Except GErr (Option TarInfo) × TFState :=
  match t with
  | some ti =>
    if tf.stream then (.ok (some ti), { tf with loaded := true })
    else (.ok (some ti), { tf with members := tf.members ++ [ti] })
  | none => (.ok none, { tf with loaded := true })

/-- The header-scan loop of `next`.  The loop repeats only under IgnoreZeros
(on EOF-marker or invalid blocks); with IgnoreZeros false every branch leaves
the loop, so any positive fuel computes the source's behavior (the fuel-0
sentinel is unreachable there). -/
def nextScan : Nat → TFState → Except GErr (Option TarInfo) × TFState
  | 0, tf => (.error .readError, tf)
  | fuel + 1, tf =>
    let r := fromTarFile tf
    match r.1 with
    | .ok ti => nextFinish (some ti) r.2
    | .error .eofHeader =>
      if r.2.ignoreZeros then
        nextScan fuel { r.2 with offset := r.2.offset + BLOCKSIZE }
      else nextFinish none r.2
    | .error .invalidHeader =>
      if r.2.ignoreZeros then
        nextScan fuel { r.2 with offset := r.2.offset + BLOCKSIZE }
      else if r.2.offset = 0 then (.error .readError, r.2)
      else nextFinish none r.2
    | .error .emptyHeader =>
      if r.2.offset = 0 then (.error .readError, r.2) else nextFinish none r.2
    | .error .truncatedHeader =>
      if r.2.offset = 0 then (.error .readError, r.2) else nextFinish none r.2
    | .error e => (.error e, r.2)

def scanFuel (tf : TFState) : Nat := tf.data.length / BLOCKSIZE + 2

/-- `next`: pop the buffered first member if present; otherwise re-sync the
stream cursor to the engine offset when they disagree (offset 0 yields the
`(nil, nil)` sentinel; the seek-and-read-one-byte probe fails past the end of
data with a ReadError), then run the scan loop. -/
def next (tf : TFState) : Except GErr (Option TarInfo) × TFState :=
  match tf.firstMember with
  | some m => (.ok (some m), { tf with firstMember := none })
  | none =>
    if tf.offset ≠ (tf.pos : Int) then
      if tf.offset = 0 then (.ok none, tf)
      else if 0 < tf.offset ∧ tf.offset ≤ (tf.data.length : Int) then
        nextScan (scanFuel tf) { tf with pos := tf.offset.toNat }
      else (.error .readError, tf)
    else nextScan (scanFuel tf) tf

/-- The loop of `load`: call `next` until it returns an error or nil.  Each
successful call either pops the buffered first member or consumes at least one
block, so the fuel covers every iteration the source performs. -/
def loadLoop : Nat → TFState → TFState
  | 0, tf => tf
  | f + 1, tf =>
    let r := next tf
    match r.1 with
    | .ok (some _) => loadLoop f r.2
    | _ => r.2

/-- `load`: scan the whole archive into the member index (not in stream mode)
and set the loaded flag. -/
def load (tf : TFState) : TFState :=
  if tf.stream then tf else { loadLoop (scanFuel tf + 1) tf with loaded := true }

/-- `GetMembers`: load on first use, then return the member index. -/
def GetMembers (tf : TFState) : List TarInfo :=
  (if ¬ tf.loaded then load tf else tf).members

/-- Opening in mode "r": offset starts at the current stream position (0) and
the first member is fetched eagerly into `firstMember`. -/
def openRead (data : List Nat) : Except GErr TFState :=
  let tf0 : TFState :=
    { data := data, pos := 0, offset := 0, ignoreZeros := false,
      stream := false, members := [], firstMember := none, loaded := false }
  let r := next tf0
  match r.1 with
  | .error e => .error e
  | .ok m => .ok { r.2 with firstMember := m }

/-- A full `listMembers()` scan: open for reading, then `GetMembers`. -/
def listMembers (data : List Nat) : Except GErr (List TarInfo) :=
  (openRead data).map GetMembers

/- ExFileObject.Read. -/

/-- Result state of the underlying `FileObj.Read`: no error, io.EOF, or any
other (hard) error. -/
inductive RdErr where
  | eofE
  | hardE
deriving DecidableEq

/-- One `ExFileObject.Read` call: at or past Size return (0, io.EOF); a hard
underlying error is returned with the raw count and without advancing; else
the count is clamped to `Size - pos` and the position advances by the clamped
count.  `n`/`err` are the underlying file read's results. -/
def efoRead (size pos : Int) (n : Int) (err : Option RdErr) :
    Int × Option RdErr × Int :=
  if size ≤ pos then (0, some .eofE, pos)
  else if err = some .hardE then (n, some .hardE, pos)
  else
    let n2 := if size - pos < n then size - pos else n
    (n2, err, pos + n2)

/-- Run a sequence of `Read` calls with the given underlying results,
returning the total byte count reported and the final position. -/
def efoRun (size : Int) : Int → List (Int × Option RdErr) → Int × Int
  | pos, [] => (0, pos)
  | pos, r :: rs =>
    let one := efoRead size pos r.1 r.2
    let rec' := efoRun size one.2.2 rs
    (one.1 + rec'.1, rec'.2)

/- Concrete test archives (inputs only: standard on-disk ustar layout with a
correct checksum, as an external tar implementation would produce). -/

/-- A fixed-width octal field: zero-padded digits and a terminating NUL. -/
def octField (w : Nat) (n : Nat) : List Nat := octalPad (w - 1) n ++ [0]

/-- A 512-byte ustar header with the checksum field still holding spaces. -/
def mkHeaderPre (name : List Nat) (mode uid gid size mtime : Nat)
    (typ : List Nat) (linkname : List Nat) : List Nat :=
  stn name 100 ++ octField 8 mode ++ octField 8 uid ++ octField 8 gid ++
  octField 12 size ++ octField 12 mtime ++ List.replicate 8 32 ++ typ ++
  stn linkname 100 ++ stn (s2b "ustar") 6 ++ s2b "00" ++ stn [] 32 ++
  stn [] 32 ++ octField 8 0 ++ octField 8 0 ++ stn [] 155 ++
  List.replicate 12 0

/-- A 512-byte ustar header block with its checksum field filled in. -/
def mkBlock (name : List Nat) (mode uid gid size mtime : Nat)
    (typ : List Nat) (linkname : List Nat) : List Nat :=
  let pre := mkHeaderPre name mode uid gid size mtime typ linkname
  pre.take 148 ++ (octalPad 6 (calcChecksum pre).toNat ++ [0, 32]) ++
    pre.drop 156

/-- Member 1 of the C1 scenario: "hello.txt", 13 bytes. -/
def helloBlock : List Nat := mkBlock (s2b "hello.txt") 420 0 0 13 0 REGTYPE []

/-- The payload block of "hello.txt": "Hello, World!" NUL-padded to 512. -/
def helloPayload : List Nat := s2b "Hello, World!" ++ List.replicate 499 0

/-- Member 2 of the C1 scenario: the directory "data/". -/
def dataBlock : List Nat := mkBlock (s2b "data/") 493 0 0 0 0 DIRTYPE []

/-- The C1 scenario archive: hello.txt (13-byte payload), data/, end-of-archive
marker, record padding to 10240 bytes. -/
def archC1 : List Nat :=
  helloBlock ++ (helloPayload ++ (dataBlock ++ List.replicate (17 * 512) 0))

/-- A 150-byte member name for the C2 long-name scenario. -/
def longName150 : List Nat := List.replicate 150 120

/-- The GNU long-name ('L') continuation header: pseudo-name `././@LongLink`,
payload size 151 (the name plus its terminating NUL). -/
def longLinkBlock : List Nat :=
  mkBlock (s2b "././@LongLink") 0 0 0 151 0 GNUTYPE_LONGNAME []

/-- The long-name payload block: the 150-byte name, one NUL, zero padding. -/
def longNamePayload : List Nat := longName150 ++ List.replicate 362 0

/-- The real header following the continuation pair (name truncated to 100
bytes, as GNU tar writes it). -/
def realBlock : List Nat :=
  mkBlock (longName150.take 100) 420 0 0 0 0 REGTYPE []

/-- The C2 scenario archive: an 'L' continuation pair, the real header, the
end-of-archive marker and record padding. -/
def archC2 : List Nat :=
  longLinkBlock ++ (longNamePayload ++ (realBlock ++ List.replicate (17 * 512) 0))

/-- A concrete long-name record ("aaa…a/bbb…b", 49+1+99 bytes) whose USTAR
serialization succeeds via the prefix split. -/
def tiC4 : TarInfo :=
  NewTarInfo (List.replicate 49 97 ++ [47] ++ List.replicate 99 98)

/-- Whether a serialization attempt produced a block. -/
def isOkE : Except GErr (List Nat) → Bool
  | .ok _ => true
  | .error _ => false

/-- The payload of a successful serialization (empty list on error). -/
def okD : Except GErr (List Nat) → List Nat
  | .ok b => b
  | .error _ => []

/-- The 512-byte block `ToBuf` produces for `tiC4` under USTAR format. -/
def blockC4 : List Nat := okD (ToBuf tiC4 USTAR_FORMAT [])

end Gtar

deriving instance DecidableEq for Except

namespace Gtar

/- Step lemmas for driving the read-side engine symbolically (the archive
data is never reduced as a whole; only single 512-byte blocks are ever
evaluated). -/

theorem fromTarFile_ok_step (tf : TFState) (blk : List Nat) (ti : TarInfo)
    (hs : slice tf.data tf.pos (tf.pos + BLOCKSIZE) = blk)
    (hd : FromBuf blk = .ok ti)
    (hl : tf.pos + BLOCKSIZE ≤ tf.data.length) :
    fromTarFile tf =
      (.ok { ti with Offset := tf.offset, OffsetData := tf.offset + BLOCKSIZE },
       { tf with pos := tf.pos + BLOCKSIZE, offset := tf.offset + BLOCKSIZE }) := by
  have hB : BLOCKSIZE = 512 := rfl
  rw [fromTarFile, if_neg (by omega), if_neg (by omega), hs, hd]

theorem fromTarFile_err_step (tf : TFState) (blk : List Nat) (e : GErr)
    (hs : slice tf.data tf.pos (tf.pos + BLOCKSIZE) = blk)
    (hd : FromBuf blk = .error e)
    (hl : tf.pos + BLOCKSIZE ≤ tf.data.length) :
    fromTarFile tf = (.error e, { tf with pos := tf.pos + BLOCKSIZE }) := by
  have hB : BLOCKSIZE = 512 := rfl
  rw [fromTarFile, if_neg (by omega), if_neg (by omega), hs, hd]

theorem scanFuel_eq_succ (tf : TFState) : scanFuel tf = (scanFuel tf - 1) + 1 := by
  simp [scanFuel]

theorem next_sync_of (tf : TFState) (hfm : tf.firstMember = none)
    (hsync : tf.offset = (tf.pos : Int)) :
    next tf = nextScan (scanFuel tf) tf := by
  rw [next, hfm, hsync]
  simp

theorem nextScan_ok_of (fuel : Nat) (tf tf' : TFState) (ti : TarInfo)
    (h : fromTarFile tf = (.ok ti, tf')) :
    nextScan (fuel + 1) tf = nextFinish (some ti) tf' := by
  simp [nextScan, h]

theorem nextScan_eof_of (fuel : Nat) (tf tf' : TFState)
    (h : fromTarFile tf = (.error .eofHeader, tf'))
    (hiz : tf'.ignoreZeros = false) :
    nextScan (fuel + 1) tf = nextFinish none tf' := by
  simp [nextScan, h, hiz]

theorem nextScan_invalid_of (fuel : Nat) (tf tf' : TFState)
    (h : fromTarFile tf = (.error .invalidHeader, tf'))
    (hiz : tf'.ignoreZeros = false) (hoff : tf'.offset ≠ 0) :
    nextScan (fuel + 1) tf = nextFinish none tf' := by
  simp [nextScan, h, hiz, hoff]

theorem next_pop (tf : TFState) (m : TarInfo) (hfm : tf.firstMember = some m) :
    next tf = (.ok (some m), { tf with firstMember := none }) := by
  rw [next, hfm]

theorem loadLoop_some (f : Nat) (tf tf' : TFState) (r : TarInfo)
    (h : next tf = (.ok (some r), tf')) :
    loadLoop (f + 1) tf = loadLoop f tf' := by
  simp [loadLoop, h]

theorem loadLoop_stop (f : Nat) (tf tf' : TFState)
    (h : next tf = (.ok none, tf')) :
    loadLoop (f + 1) tf = tf' := by
  simp [loadLoop, h]

/-- The record the engine actually produces for the first member of the C1
archive ("hello.txt", 13 bytes, header at offset 0, payload at 512). -/
def tiHello : TarInfo :=
  { Name := s2b "hello.txt", Mode := 420, UID := 0, GID := 0, Size := 13,
    Mtime := 0, Chksum := 4645, Typ := REGTYPE, Linkname := [], Uname := [],
    Gname := [], DevMajor := 0, DevMinor := 0, Offset := 0, OffsetData := 512,
    PaxHeaders := [], Sparse := none }

set_option maxRecDepth 4096 in
theorem c1_block_facts :
    helloBlock.length = 512 ∧ helloPayload.length = 512 ∧
    dataBlock.length = 512 ∧
    FromBuf helloBlock = .ok { tiHello with OffsetData := 0 } ∧
    FromBuf helloPayload = .error .invalidHeader := by
  refine ⟨by decide, by decide, by decide, by decide, by decide⟩

theorem archC1_length : archC1.length = 10240 := by
  rw [archC1]
  simp only [List.length_append, List.length_replicate,
    c1_block_facts.1, c1_block_facts.2.1, c1_block_facts.2.2.1]

theorem c1_scan : listMembers archC1 = .ok [tiHello] := by
  have hs0 : slice archC1 0 (0 + BLOCKSIZE) = helloBlock := by
    unfold slice
    rw [List.drop_zero, archC1, show 0 + BLOCKSIZE - 0 = 512 from rfl]
    exact List.take_left' c1_block_facts.1
  have hs1 : slice archC1 512 (512 + BLOCKSIZE) = helloPayload := by
    unfold slice
    rw [archC1, show 512 + BLOCKSIZE - 512 = 512 from rfl,
      List.drop_left' c1_block_facts.1]
    exact List.take_left' c1_block_facts.2.1
  have e1 : fromTarFile ⟨archC1, 0, 0, false, false, [], none, false⟩ =
      (.ok tiHello, ⟨archC1, 512, 512, false, false, [], none, false⟩) := by
    have h := fromTarFile_ok_step ⟨archC1, 0, 0, false, false, [], none, false⟩
      helloBlock { tiHello with OffsetData := 0 } hs0 c1_block_facts.2.2.2.1
      (by rw [archC1_length]; norm_num [BLOCKSIZE])
    simpa using h
  have n1 : next ⟨archC1, 0, 0, false, false, [], none, false⟩ =
      (.ok (some tiHello), ⟨archC1, 512, 512, false, false, [tiHello], none, false⟩) := by
    rw [next_sync_of _ rfl (by norm_num), scanFuel_eq_succ,
      nextScan_ok_of _ _ _ _ e1]
    simp [nextFinish]
  have hOpen : openRead archC1 =
      .ok ⟨archC1, 512, 512, false, false, [tiHello], some tiHello, false⟩ := by
    rw [openRead]
    simp only [n1]
  have e2 : fromTarFile ⟨archC1, 512, 512, false, false, [tiHello], none, false⟩ =
      (.error .invalidHeader,
       ⟨archC1, 1024, 512, false, false, [tiHello], none, false⟩) := by
    have h := fromTarFile_err_step
      ⟨archC1, 512, 512, false, false, [tiHello], none, false⟩
      helloPayload .invalidHeader hs1 c1_block_facts.2.2.2.2
      (by rw [archC1_length]; norm_num [BLOCKSIZE])
    simpa using h
  have n2 : next ⟨archC1, 512, 512, false, false, [tiHello], none, false⟩ =
      (.ok none, ⟨archC1, 1024, 512, false, false, [tiHello], none, true⟩) := by
    rw [next_sync_of _ rfl (by norm_num), scanFuel_eq_succ,
      nextScan_invalid_of _ _ _ e2 rfl (by norm_num)]
    simp [nextFinish]
  rw [listMembers, hOpen]
  show Except.ok (GetMembers _) = _
  rw [GetMembers]
  simp only [Bool.not_false, if_true, show (false = true) = False by simp,
    not_false_iff, if_pos trivial]
  rw [load]
  simp only [if_neg (by simp : ¬ (false = true))]
  rw [scanFuel_eq_succ,
    loadLoop_some _ _ _ _ (next_pop _ tiHello rfl), scanFuel_eq_succ,
    loadLoop_stop _ _ _ n2]

/-- The record the engine actually yields for the first block of the C2
archive: the GNU long-name continuation block itself, as a member. -/
def tiLongLink : TarInfo :=
  { Name := s2b "././@LongLink", Mode := 0, UID := 0, GID := 0, Size := 151,
    Mtime := 0, Chksum := 4782, Typ := GNUTYPE_LONGNAME, Linkname := [],
    Uname := [], Gname := [], DevMajor := 0, DevMinor := 0, Offset := 0,
    OffsetData := 512, PaxHeaders := [], Sparse := none }

set_option maxRecDepth 4096 in
theorem c2_block_facts :
    longLinkBlock.length = 512 ∧ longNamePayload.length = 512 ∧
    realBlock.length = 512 ∧
    FromBuf longLinkBlock = .ok { tiLongLink with OffsetData := 0 } ∧
    FromBuf longNamePayload = .error .invalidHeader := by
  refine ⟨by decide, by decide, by decide, by decide, by decide⟩

theorem archC2_length : archC2.length = 10240 := by
  rw [archC2]
  simp only [List.length_append, List.length_replicate,
    c2_block_facts.1, c2_block_facts.2.1, c2_block_facts.2.2.1]

theorem c2_scan : listMembers archC2 = .ok [tiLongLink] := by
  have hs0 : slice archC2 0 (0 + BLOCKSIZE) = longLinkBlock := by
    unfold slice
    rw [List.drop_zero, archC2, show 0 + BLOCKSIZE - 0 = 512 from rfl]
    exact List.take_left' c2_block_facts.1
  have hs1 : slice archC2 512 (512 + BLOCKSIZE) = longNamePayload := by
    unfold slice
    rw [archC2, show 512 + BLOCKSIZE - 512 = 512 from rfl,
      List.drop_left' c2_block_facts.1]
    exact List.take_left' c2_block_facts.2.1
  have e1 : fromTarFile ⟨archC2, 0, 0, false, false, [], none, false⟩ =
      (.ok tiLongLink, ⟨archC2, 512, 512, false, false, [], none, false⟩) := by
    have h := fromTarFile_ok_step ⟨archC2, 0, 0, false, false, [], none, false⟩
      longLinkBlock { tiLongLink with OffsetData := 0 } hs0
      c2_block_facts.2.2.2.1 (by rw [archC2_length]; norm_num [BLOCKSIZE])
    simpa using h
  have n1 : next ⟨archC2, 0, 0, false, false, [], none, false⟩ =
      (.ok (some tiLongLink),
       ⟨archC2, 512, 512, false, false, [tiLongLink], none, false⟩) := by
    rw [next_sync_of _ rfl (by norm_num), scanFuel_eq_succ,
      nextScan_ok_of _ _ _ _ e1]
    simp [nextFinish]
  have hOpen : openRead archC2 =
      .ok ⟨archC2, 512, 512, false, false, [tiLongLink], some tiLongLink, false⟩ := by
    rw [openRead]
    simp only [n1]
  have e2 : fromTarFile ⟨archC2, 512, 512, false, false, [tiLongLink], none, false⟩ =
      (.error .invalidHeader,
       ⟨archC2, 1024, 512, false, false, [tiLongLink], none, false⟩) := by
    have h := fromTarFile_err_step
      ⟨archC2, 512, 512, false, false, [tiLongLink], none, false⟩
      longNamePayload .invalidHeader hs1 c2_block_facts.2.2.2.2
      (by rw [archC2_length]; norm_num [BLOCKSIZE])
    simpa using h
  have n2 : next ⟨archC2, 512, 512, false, false, [tiLongLink], none, false⟩ =
      (.ok none, ⟨archC2, 1024, 512, false, false, [tiLongLink], none, true⟩) := by
    rw [next_sync_of _ rfl (by norm_num), scanFuel_eq_succ,
      nextScan_invalid_of _ _ _ e2 rfl (by norm_num)]
    simp [nextFinish]
  rw [listMembers, hOpen]
  show Except.ok (GetMembers _) = _
  rw [GetMembers]
  simp only [Bool.not_false, if_true, show (false = true) = False by simp,
    not_false_iff, if_pos trivial]
  rw [load]
  simp only [if_neg (by simp : ¬ (false = true))]
  rw [scanFuel_eq_succ,
    loadLoop_some _ _ _ _ (next_pop _ tiLongLink rfl), scanFuel_eq_succ,
    loadLoop_stop _ _ _ n2]

/-- C1: the claim says `next()` advances the stream past the previous member's
payload (rounded up to a block boundary) before decoding, so that the archive
with members "hello.txt" (13 bytes) and "data/" lists exactly two records.
The code has no such advance (`FromTarFile` moves the offset by one block
only), so the full `listMembers()` scan of that archive decodes hello.txt's
payload block as a header, fails its checksum, and ends iteration: it reports
exactly ONE record — "hello.txt" with Size 13 — and never reaches "data/".
This theorem evaluates the code at that failing input. -/
theorem C1_two_member_scan_yields_one_member :
    listMembers archC1 = .ok [tiHello] ∧
    tiHello.Name = s2b "hello.txt" ∧ tiHello.Size = 13 ∧
    [tiHello].length = 1 := by
  exact ⟨c1_scan, rfl, rfl, rfl⟩

/-- C2: the claim says a GNU long-name ('L') continuation block is never
yielded as a member and its carried name is substituted into the next real
header.  The engine has no continuation handling at all: scanning an archive
whose first block is an 'L' continuation pair followed by the real header
yields the continuation block itself as the only member (pseudo-name
`././@LongLink`, type 'L'), then aborts on the name payload.  This theorem
evaluates the code at that failing input. -/
theorem C2_continuation_block_is_yielded :
    listMembers archC2 = .ok [tiLongLink] ∧
    tiLongLink.Typ = GNUTYPE_LONGNAME ∧
    tiLongLink.Name = s2b "././@LongLink" := by
  exact ⟨c2_scan, rfl, rfl⟩

/-- The sparse record of the C5 claim: logical size 1 MiB, two stored
segments. -/
def tiSparseC5 : TarInfo :=
  { NewTarInfo (s2b "sparse.bin") with
    Size := 1048576, Sparse := some [(0, 1024), (1047552, 1024)] }

set_option maxRecDepth 4096 in
/-- C5: the claimed sparse round-trip is impossible: serializing the record
(GNU format, the format carrying sparse headers) panics — `createHeader`
asserts the absent "prefix" entry of the info map to a string — and
`createHeader` writes no sparse region in any case.  This theorem evaluates
the serializer at the claim's record. -/
theorem C5_sparse_serialization_panics :
    ToBuf tiSparseC5 GNU_FORMAT [] = .error .goPanic := by decide

/- Lemmas about the info map. -/

theorem Info.get_set_self (m : Info) (k : String) (v : GoVal) :
    Info.get (Info.set m k v) k = some v := by
  induction m with
  | nil => simp [Info.set, Info.get]
  | cons p t ih =>
    rw [Info.set]
    by_cases hp : p.1 = k
    · simp [Info.get, hp]
    · rw [if_neg hp, Info.get, if_neg hp]
      exact ih

theorem Info.get_set_ne (m : Info) (k k' : String) (v : GoVal) (h : k ≠ k') :
    Info.get (Info.set m k v) k' = Info.get m k' := by
  induction m with
  | nil => simp [Info.set, Info.get, h]
  | cons p t ih =>
    rw [Info.set]
    by_cases hp : p.1 = k
    · rw [if_pos hp, Info.get, if_neg h, Info.get, if_neg (hp ▸ h)]
    · rw [if_neg hp, Info.get, Info.get]
      by_cases hp' : p.1 = k'
      · rw [if_pos hp', if_pos hp']
      · rw [if_neg hp', if_neg hp']
        exact ih

/-- A state in which the numeric-field loop of `createPaxHeader` must panic:
"size" is stored as an int64 (as GetInfo stores it), and "uid"/"gid" as ints. -/
def paxNumInv (info : Info) : Prop :=
  (∃ x, Info.get info "size" = some (.vInt64 x)) ∧
  (∃ x, Info.get info "uid" = some (.vInt x)) ∧
  (∃ x, Info.get info "gid" = some (.vInt x))

theorem paxNumInv_set_uid (info : Info) (v : Int) (h : paxNumInv info) :
    paxNumInv (Info.set info "uid" (.vInt v)) := by
  obtain ⟨⟨x, hx⟩, ⟨y, _⟩, ⟨z, hz⟩⟩ := h
  exact ⟨⟨x, by rw [Info.get_set_ne _ _ _ _ (by decide)]; exact hx⟩,
    ⟨v, Info.get_set_self _ _ _⟩,
    ⟨z, by rw [Info.get_set_ne _ _ _ _ (by decide)]; exact hz⟩⟩

theorem paxNumInv_set_gid (info : Info) (v : Int) (h : paxNumInv info) :
    paxNumInv (Info.set info "gid" (.vInt v)) := by
  obtain ⟨⟨x, hx⟩, ⟨y, hy⟩, ⟨z, _⟩⟩ := h
  exact ⟨⟨x, by rw [Info.get_set_ne _ _ _ _ (by decide)]; exact hx⟩,
    ⟨y, by rw [Info.get_set_ne _ _ _ _ (by decide)]; exact hy⟩,
    ⟨v, Info.get_set_self _ _ _⟩⟩

/-- Whatever order Go's map iteration visits the numeric fields in, the loop
reaches the "size" entry — stored as an int64 but asserted as an int — and
panics; the uid/gid/mtime steps before it cannot fail. -/
theorem paxNumLoop_panics (order : List String) (st : Info × PaxMap)
    (hmem : "size" ∈ order)
    (hsub : ∀ k ∈ order, k = "uid" ∨ k = "gid" ∨ k = "size" ∨ k = "mtime")
    (hinv : paxNumInv st.1) :
    paxNumLoop st order = .error .goPanic := by
  induction order generalizing st with
  | nil => simp at hmem
  | cons k rest ih =>
    have hk := hsub k (by simp)
    rcases hk with hk | hk | hk | hk
    · subst hk
      obtain ⟨_, ⟨y, hy⟩, _⟩ := id hinv
      have hmem' : "size" ∈ rest := by simpa using hmem
      rw [paxNumLoop, if_neg (by decide)]
      rw [show Info.get st.1 "uid" = some (.vInt y) from hy]
      show Except.bind (asInt (some (.vInt y))) _ = _
      rw [show asInt (some (.vInt y)) = .ok y from rfl]
      show (if y < 0 ∨ _ ≤ y then _ else _) = _
      split
      · exact ih _ hmem' (fun j hj => hsub j (by simp [hj]))
          (paxNumInv_set_uid _ _ hinv)
      · exact ih _ hmem' (fun j hj => hsub j (by simp [hj])) hinv
    · subst hk
      obtain ⟨_, _, ⟨z, hz⟩⟩ := id hinv
      have hmem' : "size" ∈ rest := by simpa using hmem
      rw [paxNumLoop, if_neg (by decide)]
      rw [show Info.get st.1 "gid" = some (.vInt z) from hz]
      show Except.bind (asInt (some (.vInt z))) _ = _
      rw [show asInt (some (.vInt z)) = .ok z from rfl]
      show (if z < 0 ∨ _ ≤ z then _ else _) = _
      split
      · exact ih _ hmem' (fun j hj => hsub j (by simp [hj]))
          (paxNumInv_set_gid _ _ hinv)
      · exact ih _ hmem' (fun j hj => hsub j (by simp [hj])) hinv
    · subst hk
      obtain ⟨⟨x, hx⟩, _, _⟩ := id hinv
      rw [paxNumLoop, if_neg (by decide)]
      rw [show Info.get st.1 "size" = some (.vInt64 x) from hx]
      show Except.bind (asInt (some (.vInt64 x))) _ = _
      rfl
    · subst hk
      rw [paxNumLoop, if_pos rfl]
      exact ih _ (by simpa using hmem) (fun j hj => hsub j (by simp [hj])) hinv

/-- The record of the C7 claim: uid = 2^40. -/
def tiUidC7 : TarInfo := { NewTarInfo (s2b "f") with UID := 2 ^ 40 }

set_option maxRecDepth 4096 in
/-- C7: the claim says PAX serialization of a record with uid 2^40 moves the
uid into the extended-attribute map and zeroes the on-disk uid field.  The
code never gets there: the numeric-field loop of `createPaxHeader` performs
`info[name].(int)` and, whatever order Go's map iteration visits the four
fields in, the "size" entry — stored as an int64 by GetInfo — fails that
assertion and the serialization panics, producing no block at all. -/
theorem C7_pax_uid_overflow_panics (order : List String)
    (hmem : "size" ∈ order)
    (hsub : ∀ k ∈ order, k = "uid" ∨ k = "gid" ∨ k = "size" ∨ k = "mtime") :
    ToBuf tiUidC7 PAX_FORMAT order = .error .goPanic := by
  rw [ToBuf, if_neg (by decide), if_neg (by decide), if_pos rfl,
    createPaxHeader]
  have h1 : paxFieldsLoop (Info.set (GetInfo tiUidC7) "magic" (.vStr POSIX_MAGIC))
      tiUidC7.PaxHeaders paxFields = .ok [] := by decide
  show Except.bind _ _ = _
  rw [h1]
  show Except.bind (paxNumLoop _ order) _ = _
  rw [paxNumLoop_panics order _ hmem hsub
    (by exact ⟨⟨0, by decide⟩, ⟨2 ^ 40, by decide⟩, ⟨0, by decide⟩⟩)]
  rfl

/-- Witness for C7 at a concrete iteration order. -/
theorem C7_pax_uid_overflow_panics_witness :
    ToBuf tiUidC7 PAX_FORMAT ["uid", "gid", "size", "mtime"] = .error .goPanic :=
  C7_pax_uid_overflow_panics ["uid", "gid", "size", "mtime"] (by simp)
    (by intro k hk; simp at hk; rcases hk with h | h | h | h <;> simp [h])


/-- C8: decode classifies the buffer before parsing any field — a zero-length
buffer is EmptyHeader, any other non-512-byte buffer is TruncatedHeader, the
all-NUL block is EOFHeader — and on the read path an EOF-marker block ends
iteration: `next()` returns the `(nil, nil)` no-more-members sentinel with no
error. -/
theorem C8_classification_and_eof_sentinel :
    FromBuf [] = .error .emptyHeader ∧
    (∀ buf : List Nat, buf.length ≠ 0 → buf.length ≠ 512 →
      FromBuf buf = .error .truncatedHeader) ∧
    FromBuf (List.replicate 512 0) = .error .eofHeader ∧
    (∀ tf : TFState, tf.firstMember = none → tf.ignoreZeros = false →
      tf.offset = (tf.pos : Int) →
      slice tf.data tf.pos (tf.pos + BLOCKSIZE) = List.replicate 512 0 →
      tf.pos + BLOCKSIZE ≤ tf.data.length →
      (next tf).1 = .ok none) := by
  refine ⟨rfl, ?_, by decide, ?_⟩
  · intro buf h0 h512
    rw [FromBuf, if_neg h0, if_pos (by exact h512)]
  · intro tf hfm hiz hsync hs hl
    have he : fromTarFile tf =
        (.error .eofHeader, { tf with pos := tf.pos + BLOCKSIZE }) :=
      fromTarFile_err_step tf (List.replicate 512 0) .eofHeader hs (by decide) hl
    rw [next_sync_of tf hfm hsync, scanFuel_eq_succ,
      nextScan_eof_of _ _ _ he (by simpa using hiz)]
    rfl

/-- Witness for C8 at concrete inputs: a 3-byte buffer is truncated, and
`next` on an archive of two all-NUL blocks returns the sentinel. -/
theorem C8_classification_witness :
    FromBuf [1, 2, 3] = .error .truncatedHeader ∧
    (next ⟨List.replicate 1024 0, 0, 0, false, false, [], none, false⟩).1 =
      .ok none := by
  constructor
  · exact C8_classification_and_eof_sentinel.2.1 [1, 2, 3] (by decide) (by decide)
  · exact C8_classification_and_eof_sentinel.2.2.2
      ⟨List.replicate 1024 0, 0, 0, false, false, [], none, false⟩
      rfl rfl (by norm_num)
      (by simp [slice, List.drop_replicate, List.take_replicate, BLOCKSIZE])
      (by simp [BLOCKSIZE])

/- C3: the checksum convention. -/

/-- The claim's formulation of the checksum: the sum of all header bytes with
the checksum field's own eight bytes (offsets 148..155) replaced by ASCII
spaces (32) during the summation. -/
def spacedSumFrom : Nat → List Nat → Int
  | _, [] => 0
  | i, b :: t =>
    (if 148 ≤ i ∧ i < 156 then (32 : Int) else (b : Int)) + spacedSumFrom (i + 1) t

theorem calcSumFrom_append (xs ys : List Nat) (i : Nat) :
    calcSumFrom i (xs ++ ys) = calcSumFrom i xs + calcSumFrom (i + xs.length) ys := by
  induction xs generalizing i with
  | nil => simp [calcSumFrom]
  | cons b t ih =>
    simp only [List.cons_append, calcSumFrom, List.length_cons, List.append_eq]
    rw [ih (i + 1), show i + 1 + t.length = i + (t.length + 1) from by omega]
    ring

theorem spacedSumFrom_append (xs ys : List Nat) (i : Nat) :
    spacedSumFrom i (xs ++ ys) = spacedSumFrom i xs + spacedSumFrom (i + xs.length) ys := by
  induction xs generalizing i with
  | nil => simp [spacedSumFrom]
  | cons b t ih =>
    simp only [List.cons_append, spacedSumFrom, List.length_cons, List.append_eq]
    rw [ih (i + 1), show i + 1 + t.length = i + (t.length + 1) from by omega]
    ring

theorem sums_eq_outside (l : List Nat) (i : Nat)
    (h : ∀ j < l.length, ¬ (148 ≤ i + j ∧ i + j < 156)) :
    spacedSumFrom i l = calcSumFrom i l := by
  induction l generalizing i with
  | nil => rfl
  | cons b t ih =>
    have h0 := h 0 (by simp)
    simp only [spacedSumFrom, calcSumFrom, if_neg (by omega : ¬ (148 ≤ i ∧ i < 156))]
    rw [ih (i + 1) (fun j hj => by have := h (j + 1) (by simpa using hj); omega)]

theorem sums_inside (l : List Nat) (i : Nat)
    (h : ∀ j < l.length, 148 ≤ i + j ∧ i + j < 156) :
    spacedSumFrom i l = 32 * l.length ∧ calcSumFrom i l = 0 := by
  induction l generalizing i with
  | nil => simp [spacedSumFrom, calcSumFrom]
  | cons b t ih =>
    have h0 := h 0 (by simp)
    have ht := ih (i + 1) (fun j hj => by have := h (j + 1) (by simpa using hj); omega)
    simp only [spacedSumFrom, calcSumFrom, if_pos (by omega : 148 ≤ i ∧ i < 156),
      List.length_cons, ht.1, ht.2]
    constructor
    · push_cast
      ring
    · ring

/-- Whether a decode result is an InvalidHeaderError. -/
theorem nti_error_is_invalid (s : List Nat) (e : GErr) (hne : s ≠ [])
    (h : nti s = .error e) : e = .invalidHeader := by
  match s, hne with
  | b0 :: rest, _ =>
    simp only [nti] at h
    split at h
    · simp at h
    · split at h
      · simp at h
      · split at h
        · simp at h
        · simpa using h.symm

/-- A full-size, non-end-marker block whose stored checksum field does not
parse to the recomputed checksum decodes as an InvalidHeaderError. -/
theorem fromBuf_bad_checksum (buf : List Nat) (hlen : buf.length = 512)
    (hz : buf ≠ List.replicate 512 0)
    (hne : nti (slice buf 148 156) ≠ .ok (calcChecksum buf)) :
    FromBuf buf = .error .invalidHeader := by
  rw [FromBuf, if_neg (by omega), if_neg (by rw [hlen]; decide),
    if_neg (by
      intro hc
      apply hz
      have hall : ∀ b ∈ buf, 0 = b :=
        List.count_eq_length.1 (by rw [hlen]; exact hc)
      exact List.eq_replicate_iff.2 ⟨hlen, fun b hb => (hall b hb).symm⟩)]
  cases hnti : nti (slice buf 148 156) with
  | error e =>
    have : e = .invalidHeader := nti_error_is_invalid _ e (by
      have : (slice buf 148 156).length = 8 := by
        rw [slice, List.length_take, List.length_drop]; omega
      intro hc; rw [hc] at this; simp at this) hnti
    subst this
    rfl
  | ok v =>
    have hv : v ≠ calcChecksum buf := fun hc => hne (by rw [hnti, hc])
    show (if v ≠ calcChecksum buf then Except.error GErr.invalidHeader
      else _) = Except.error GErr.invalidHeader
    rw [if_pos hv]

/-- C3: the codec's checksum equals the 256-plus-byte-sum with the checksum
field's eight bytes treated as ASCII spaces, and a 512-byte header block
(other than the all-NUL end marker) whose stored checksum field does not
parse to that recomputation fails decoding as an InvalidHeaderError. -/
theorem C3_checksum_convention :
    (∀ buf : List Nat, buf.length = 512 →
      calcChecksum buf = spacedSumFrom 0 buf) ∧
    (∀ buf : List Nat, buf.length = 512 → buf ≠ List.replicate 512 0 →
      nti (slice buf 148 156) ≠ .ok (calcChecksum buf) →
      FromBuf buf = .error .invalidHeader) := by
  constructor
  · intro buf hlen
    have hA : buf = buf.take 148 ++ ((buf.drop 148).take 8 ++ (buf.drop 148).drop 8) := by
      rw [List.take_append_drop, List.take_append_drop]
    have lA : (buf.take 148).length = 148 := by
      rw [List.length_take]; omega
    have lM : ((buf.drop 148).take 8).length = 8 := by
      rw [List.length_take, List.length_drop]; omega
    conv_lhs => rw [calcChecksum, hA]
    conv_rhs => rw [hA]
    rw [calcSumFrom_append, calcSumFrom_append, spacedSumFrom_append,
      spacedSumFrom_append, lA, lM]
    have z1 : spacedSumFrom 0 (buf.take 148) = calcSumFrom 0 (buf.take 148) :=
      sums_eq_outside _ 0 (fun j hj => by rw [lA] at hj; omega)
    have z2 := sums_inside ((buf.drop 148).take 8) 148
      (fun j hj => by rw [lM] at hj; omega)
    have z3 : spacedSumFrom (148 + 8) ((buf.drop 148).drop 8) =
        calcSumFrom (148 + 8) ((buf.drop 148).drop 8) :=
      sums_eq_outside _ (148 + 8) (fun j hj => by omega)
    rw [z1, z2.1, z2.2, z3, lM]
    push_cast
    ring
  · exact fromBuf_bad_checksum

/-- Witness for C3 at the all-ones block: its checksum field does not parse,
and decoding fails as invalid. -/
theorem C3_checksum_convention_witness :
    calcChecksum (List.replicate 512 1) = spacedSumFrom 0 (List.replicate 512 1) ∧
    FromBuf (List.replicate 512 1) = .error .invalidHeader := by
  constructor
  · exact C3_checksum_convention.1 (List.replicate 512 1) (by decide)
  · exact C3_checksum_convention.2 (List.replicate 512 1) (by decide) (by decide)
      (by decide)

/- C6: USTAR name splitting. -/

/-- A split point of the component list is valid when the joined prefix fits
in 155 bytes and the joined remainder in 100 bytes. -/
abbrev validSplitAt (cs : List (List Nat)) (i : Nat) : Prop :=
  (joinWith [47] (cs.take i)).length ≤ LENGTH_PFX ∧
  (joinWith [47] (cs.drop i)).length ≤ LENGTH_NAME

theorem splitLoop_none (cs : List (List Nat)) (fuel i0 : Nat)
    (h : ∀ j, i0 ≤ j → j < cs.length → ¬ validSplitAt cs j) :
    splitLoop cs fuel i0 = .error .goError := by
  induction fuel generalizing i0 with
  | zero => rfl
  | succ f ih =>
    rw [splitLoop]
    by_cases hi : i0 < cs.length
    · rw [if_pos hi]
      show (if validSplitAt cs i0 then
          Except.ok (joinWith [47] (cs.take i0), joinWith [47] (cs.drop i0))
        else splitLoop cs f (i0 + 1)) = _
      rw [if_neg (h i0 le_rfl hi)]
      exact ih (i0 + 1) (fun j hj => h j (by omega))
    · rw [if_neg hi]

theorem splitLoop_first (cs : List (List Nat)) (fuel i0 i : Nat)
    (hle : i0 ≤ i) (hlt : i < cs.length) (hv : validSplitAt cs i)
    (hmin : ∀ j, i0 ≤ j → j < i → ¬ validSplitAt cs j)
    (hfuel : i - i0 < fuel) :
    splitLoop cs fuel i0 =
      .ok (joinWith [47] (cs.take i), joinWith [47] (cs.drop i)) := by
  induction fuel generalizing i0 with
  | zero => omega
  | succ f ih =>
    rw [splitLoop]
    rcases eq_or_lt_of_le hle with heq | hlt0
    · subst heq
      rw [if_pos hlt]
      show (if validSplitAt cs i0 then
          Except.ok (joinWith [47] (cs.take i0), joinWith [47] (cs.drop i0))
        else splitLoop cs f (i0 + 1)) = _
      rw [if_pos hv]
    · rw [if_pos (by omega)]
      show (if validSplitAt cs i0 then
          Except.ok (joinWith [47] (cs.take i0), joinWith [47] (cs.drop i0))
        else splitLoop cs f (i0 + 1)) = _
      rw [if_neg (hmin i0 le_rfl hlt0)]
      exact ih (i0 + 1) (by omega) (fun j hj => hmin j (by omega)) (by omega)

/-- The name of the C6 counterexample: "a/b/" followed by 97 'x' bytes
(101 bytes, so USTAR serialization must split it). -/
def nameC6 : List Nat := s2b "a/b/" ++ List.replicate 97 120

/-- Counterexample to C6 as stated: on `nameC6` the encoder returns the split
with prefix "a" (the SHORTEST valid prefix), although the split at "a/b" is
also valid (prefix 3 ≤ 155 bytes, remainder 97 ≤ 100 bytes, and it
reassembles to the same name) and its prefix is longer — so the encoder does
not use the longest valid prefix. -/
theorem C6_longest_prefix_counterexample :
    posixSplitName nameC6 = .ok (s2b "a", s2b "b/" ++ List.replicate 97 120) ∧
    nameC6.length = 101 ∧
    (s2b "a/b").length ≤ LENGTH_PFX ∧
    (List.replicate 97 120 : List Nat).length ≤ LENGTH_NAME ∧
    s2b "a/b" ++ [47] ++ List.replicate 97 120 = nameC6 ∧
    (s2b "a").length < (s2b "a/b").length := by
  refine ⟨by decide, by decide, by decide, by decide, by decide, by decide⟩

/-- C6 (amended): when serializing a USTAR name longer than 100 bytes the
encoder tries the '/' boundaries in order of increasing prefix length and
uses the FIRST split whose prefix is at most 155 bytes and whose remainder is
at most 100 bytes; it fails with a name-too-long error when no boundary
yields such a split — in particular a single 150-byte path segment with no
'/' cannot be serialized under USTAR. -/
theorem C6_first_valid_split :
    (∀ (name : List Nat) (i : Nat), 1 ≤ i → i < (splitOnByte 47 name).length →
      validSplitAt (splitOnByte 47 name) i →
      (∀ j, 1 ≤ j → j < i → ¬ validSplitAt (splitOnByte 47 name) j) →
      posixSplitName name =
        .ok (joinWith [47] ((splitOnByte 47 name).take i),
             joinWith [47] ((splitOnByte 47 name).drop i))) ∧
    (∀ name : List Nat,
      (∀ i, 1 ≤ i → i < (splitOnByte 47 name).length →
        ¬ validSplitAt (splitOnByte 47 name) i) →
      posixSplitName name = .error .goError) ∧
    ToBuf (NewTarInfo (List.replicate 150 120)) USTAR_FORMAT [] =
      .error .goError := by
  refine ⟨?_, ?_, by decide⟩
  · intro name i h1 hlt hv hmin
    exact splitLoop_first _ _ 1 i h1 hlt hv hmin (by omega)
  · intro name h
    exact splitLoop_none _ _ 1 (fun j hj hlt => h j hj hlt)

/-- Witness for C6 at a concrete name with a non-initial first valid split:
"aa/bb/" + 99 x's (105 bytes) splits at "aa/bb" (the split at "aa" leaves a
103-byte remainder and is skipped), and the 150-byte slashless name fails. -/
theorem C6_first_valid_split_witness :
    posixSplitName (s2b "aa/bb/" ++ List.replicate 99 120) =
      .ok (s2b "aa/bb", List.replicate 99 120) ∧
    posixSplitName (List.replicate 150 120) = .error .goError := by
  constructor
  · have h := C6_first_valid_split.1 (s2b "aa/bb/" ++ List.replicate 99 120) 2
      (by decide) (by decide) (by decide)
      (by intro j h1 h2; interval_cases j; decide)
    simpa using h
  · exact C6_first_valid_split.2.1 (List.replicate 150 120)
      (by
        intro i h1 h2
        rw [show (splitOnByte 47 (List.replicate 150 120)).length = 1 from
          by decide] at h2
        exact absurd h2 (by omega))

/- C9: itn/nti roundtrip. -/

theorem octalStrF_digits (fuel n : Nat) :
    ∀ b ∈ octalStrF fuel n, 48 ≤ b ∧ b ≤ 55 := by
  induction fuel generalizing n with
  | zero =>
    intro b hb
    simp only [octalStrF, List.mem_singleton] at hb
    subst hb
    have := Nat.mod_lt n (y := 8) (by omega)
    omega
  | succ f ih =>
    intro b hb
    rw [octalStrF] at hb
    split at hb
    · simp only [List.mem_singleton] at hb
      subst hb
      omega
    · rw [List.mem_append] at hb
      cases hb with
      | inl h => exact ih _ b h
      | inr h =>
        simp only [List.mem_singleton] at h
        subst h
        have := Nat.mod_lt n (y := 8) (by omega)
        omega

theorem octalPad_digits (w n : Nat) : ∀ b ∈ octalPad w n, 48 ≤ b ∧ b ≤ 55 := by
  intro b hb
  rw [octalPad, List.mem_append] at hb
  cases hb with
  | inl h => rw [List.eq_of_mem_replicate h]; omega
  | inr h => exact octalStrF_digits n n b h

theorem octalStrF_ne_nil (fuel n : Nat) : octalStrF fuel n ≠ [] := by
  cases fuel with
  | zero => simp [octalStrF]
  | succ f =>
    rw [octalStrF]
    split
    · simp
    · simp

theorem octalPad_ne_nil (w n : Nat) : octalPad w n ≠ [] := by
  rw [octalPad]
  intro h
  rw [List.append_eq_nil] at h
  exact octalStrF_ne_nil n n h.2

theorem octFold_octalStrF (fuel : Nat) :
    ∀ n a : Nat, n ≤ fuel →
      (octalStrF fuel n).foldl (fun x b => x * 8 + (b - 48)) a =
        a * 8 ^ (octalStrF fuel n).length + n := by
  induction fuel with
  | zero =>
    intro n a hn
    interval_cases n
    simp [octalStrF]
  | succ f ih =>
    intro n a hn
    rw [octalStrF]
    split
    · rename_i h8
      simp only [List.foldl_cons, List.foldl_nil, List.length_singleton]
      rw [show 48 + n - 48 = n from by omega]
      ring
    · rename_i h8
      rw [List.foldl_append, List.length_append,
        ih (n / 8) a (by omega)]
      simp only [List.foldl_cons, List.foldl_nil, List.length_singleton]
      rw [show 48 + n % 8 - 48 = n % 8 from by omega]
      have hsplit : n = 8 * (n / 8) + n % 8 := (Nat.div_add_mod n 8).symm
      rw [pow_succ]
      ring_nf
      omega

theorem octFold_octalPad (w n : Nat) :
    (octalPad w n).foldl (fun x b => x * 8 + (b - 48)) 0 = n := by
  rw [octalPad, List.foldl_append]
  have hz : (List.replicate (w - (octalStr n).length) 48).foldl
      (fun x b => x * 8 + (b - 48)) 0 = 0 := by
    generalize w - (octalStr n).length = m
    induction m with
    | zero => rfl
    | succ k ih => simpa [List.replicate_succ] using ih
  rw [hz, octalStr, octFold_octalStrF n n 0 le_rfl]
  ring

theorem takeWhile_all_append (p : Nat → Bool) (xs : List Nat) (y : Nat)
    (t : List Nat) (hxs : ∀ x ∈ xs, p x = true) (hy : p y = false) :
    (xs ++ y :: t).takeWhile p = xs := by
  induction xs with
  | nil => simp [List.takeWhile, hy]
  | cons a l ih =>
    simp only [List.cons_append, List.takeWhile]
    rw [hxs a (by simp)]
    show a :: List.takeWhile p (l ++ y :: t) = a :: l
    rw [ih (fun x hx => hxs x (by simp [hx]))]

theorem dropWhile_all_false (p : Nat → Bool) (l : List Nat)
    (h : ∀ x ∈ l, p x = false) : l.dropWhile p = l := by
  cases l with
  | nil => rfl
  | cons a t => simp [List.dropWhile, h a (by simp)]

theorem trimSpace_of_no_space (l : List Nat)
    (h : ∀ x ∈ l, isSpaceByte x = false) : trimSpace l = l := by
  rw [trimSpace, dropWhile_all_false _ l h,
    dropWhile_all_false _ l.reverse (fun x hx => h x (List.mem_reverse.1 hx)),
    List.reverse_reverse]

theorem parseOctal64_of_digits (ds : List Nat) (hne : ds ≠ [])
    (hd : ∀ b ∈ ds, 48 ≤ b ∧ b ≤ 55)
    (hv : ds.foldl (fun a b => a * 8 + (b - 48)) 0 ≤ 2 ^ 63 - 1) :
    parseOctal64 ds =
      some ((ds.foldl (fun a b => a * 8 + (b - 48)) 0 : Nat) : Int) := by
  match ds, hne with
  | b0 :: bs, _ =>
    have h0 := hd b0 (by simp)
    rw [parseOctal64]
    simp only [if_neg (by omega : ¬ b0 = 43), if_neg (by omega : ¬ b0 = 45)]
    rw [if_neg (by simp), if_pos (by
      rw [List.all_eq_true]
      intro x hx
      have := hd x hx
      simp only [Bool.and_eq_true, decide_eq_true_eq]
      omega)]
    rw [if_pos hv]
    simp

theorem nti_octalField (w c : Nat) (tail : List Nat)
    (hc : c ≤ 2 ^ 63 - 1) :
    nti (octalPad w c ++ 0 :: tail) = .ok (c : Int) := by
  obtain ⟨b0, bs, he⟩ : ∃ b0 bs, octalPad w c = b0 :: bs := by
    cases h : octalPad w c with
    | nil => exact absurd h (octalPad_ne_nil w c)
    | cons x xs => exact ⟨x, xs, rfl⟩
  have h0 : 48 ≤ b0 ∧ b0 ≤ 55 := octalPad_digits w c b0 (by rw [he]; simp)
  rw [he, List.cons_append, nti]
  rw [if_neg (by omega : ¬ (b0 = 0x80 ∨ b0 = 0xFF))]
  have hnts : nts (b0 :: (bs ++ 0 :: tail)) = b0 :: bs := by
    rw [nts, show b0 :: (bs ++ 0 :: tail) = (b0 :: bs) ++ 0 :: tail from rfl]
    exact takeWhile_all_append _ (b0 :: bs) 0 tail
      (fun x hx => by
        have := octalPad_digits w c x (by rw [he]; exact hx)
        exact decide_eq_true (by omega))
      (by simp)
  have htrim : trimSpace (nts (b0 :: (bs ++ 0 :: tail))) = b0 :: bs := by
    rw [hnts]
    exact trimSpace_of_no_space _ (fun x hx => by
      have := octalPad_digits w c x (by rw [he]; exact hx)
      simp only [isSpaceByte, Bool.or_eq_false_iff, Bool.and_eq_false_iff,
        decide_eq_false_iff_not]
      omega)
  rw [htrim]
  rw [if_neg (by simp)]
  rw [← he, parseOctal64_of_digits (octalPad w c) (octalPad_ne_nil w c)
    (octalPad_digits w c) (by rw [octFold_octalPad]; exact hc),
    octFold_octalPad]

theorem wrap64_emod (x : Int) : wrap64 x % 2 ^ 64 = x % 2 ^ 64 := by
  rw [wrap64]
  omega

theorem wrap64_bounds (x : Int) : -2 ^ 63 ≤ wrap64 x ∧ wrap64 x < 2 ^ 63 := by
  rw [wrap64]
  omega

theorem wrap64_of_range (x : Int) (h1 : -2 ^ 63 ≤ x) (h2 : x < 2 ^ 63) :
    wrap64 x = x := by
  rw [wrap64]
  omega

theorem eq_wrap64_of (x y : Int) (hmod : x % 2 ^ 64 = y % 2 ^ 64)
    (h1 : -2 ^ 63 ≤ x) (h2 : x < 2 ^ 63) : x = wrap64 y := by
  rw [wrap64]
  omega

theorem foldW_mod (l : List Int) :
    ∀ a a' : Int, a % 2 ^ 64 = a' % 2 ^ 64 →
      (l.foldl (fun x b => wrap64 (x * 256 + b)) a) % 2 ^ 64 =
        (l.foldl (fun x b => x * 256 + b) a') % 2 ^ 64 := by
  induction l with
  | nil => exact fun a a' h => h
  | cons b t ih =>
    intro a a' h
    simp only [List.foldl_cons]
    exact ih _ _ (by rw [wrap64_emod]; omega)

theorem foldW_range (l : List Int) :
    ∀ a : Int, -2 ^ 63 ≤ a → a < 2 ^ 63 →
      -2 ^ 63 ≤ l.foldl (fun x b => wrap64 (x * 256 + b)) a ∧
        l.foldl (fun x b => wrap64 (x * 256 + b)) a < 2 ^ 63 := by
  induction l with
  | nil => exact fun a h1 h2 => ⟨h1, h2⟩
  | cons b t ih =>
    intro a h1 h2
    simp only [List.foldl_cons]
    exact ih _ (wrap64_bounds _).1 (wrap64_bounds _).2

theorem foldW_eq_wrap64 (l : List Int) (a : Int) (h1 : -2 ^ 63 ≤ a)
    (h2 : a < 2 ^ 63) :
    l.foldl (fun x b => wrap64 (x * 256 + b)) a =
      wrap64 (l.foldl (fun x b => x * 256 + b) a) := by
  exact eq_wrap64_of _ _ (foldW_mod l a a rfl) (foldW_range l a h1 h2).1
    (foldW_range l a h1 h2).2

theorem emod_split256 (n : Int) (k : Nat) :
    256 * ((n / 256) % 256 ^ k) + n % 256 = n % 256 ^ (k + 1) := by
  have hm : (0 : Int) < 256 ^ k := by positivity
  have hr1 : (0 : Int) ≤ n % 256 := Int.emod_nonneg n (by norm_num)
  have hr2 : n % 256 < 256 := Int.emod_lt_of_pos n (by norm_num)
  have hr3 : (0 : Int) ≤ (n / 256) % 256 ^ k := Int.emod_nonneg _ (by positivity)
  have hr4 : (n / 256) % 256 ^ k < 256 ^ k := Int.emod_lt_of_pos _ hm
  have hp : (256 : Int) ^ (k + 1) = 256 ^ k * 256 := pow_succ 256 k
  have hlt : 256 * ((n / 256) % 256 ^ k) + n % 256 < 256 ^ (k + 1) := by
    rw [hp]
    linarith
  have hn : n = 256 ^ (k + 1) * ((n / 256) / 256 ^ k) +
      (256 * ((n / 256) % 256 ^ k) + n % 256) := by
    have e1 : 256 * (n / 256) + n % 256 = n := Int.ediv_add_emod n 256
    have e2 : 256 ^ k * ((n / 256) / 256 ^ k) + (n / 256) % 256 ^ k = n / 256 :=
      Int.ediv_add_emod (n / 256) (256 ^ k)
    calc n = 256 * (n / 256) + n % 256 := e1.symm
    _ = 256 * (256 ^ k * ((n / 256) / 256 ^ k) + (n / 256) % 256 ^ k) + n % 256 := by
        rw [e2]
    _ = _ := by rw [hp]; ring
  have hkey : (256 ^ (k + 1) * ((n / 256) / 256 ^ k) +
      (256 * ((n / 256) % 256 ^ k) + n % 256)) % 256 ^ (k + 1) =
      256 * ((n / 256) % 256 ^ k) + n % 256 := by
    rw [add_comm, Int.add_mul_emod_self_left]
    exact Int.emod_eq_of_lt (by omega) hlt
  rw [← hkey, ← hn]

theorem foldN_beBytesInt (k : Nat) :
    ∀ (n : Int) (a : Int),
      ((beBytesInt k n).map (fun (b : Nat) => (b : Int))).foldl
          (fun x b => x * 256 + b) a =
        a * 256 ^ k + n % 256 ^ k := by
  induction k with
  | zero =>
    intro n a
    simp [beBytesInt]
  | succ j ih =>
    intro n a
    rw [beBytesInt, List.map_append, List.foldl_append, ih]
    simp only [List.map_cons, List.map_nil, List.foldl_cons, List.foldl_nil]
    rw [Int.toNat_of_nonneg (Int.emod_nonneg n (by norm_num))]
    rw [show Int.fdiv n 256 = n / 256 from Int.fdiv_eq_ediv n (by norm_num)]
    rw [← emod_split256 n j, pow_succ]
    ring

set_option maxHeartbeats 1000000 in
/-- C9 (amended): for every field width and every int64 value accepted by
`itn(n, digits, GNU_FORMAT)`, decoding the produced field with `nti` returns
exactly `n` — EXCEPT at the negative base-256 boundary `n = -(256^(digits-1))`,
which `itn` accepts but whose magnitude is truncated to zero bytes, so `nti`
returns 0.  (The `hlo`/`hhi` bounds are Go's int64 typing of `n`.) -/
theorem C9_roundtrip_amended (n : Int) (digits : Nat) (field : List Nat)
    (hlo : -2 ^ 63 ≤ n) (hhi : n < 2 ^ 63)
    (hok : itn n digits GNU_FORMAT = .ok field)
    (hnb : n ≠ -((256 : Int) ^ (digits - 1))) :
    nti field = .ok n := by
  rw [itn] at hok
  split at hok
  · rename_i hoct
    cases hok
    rw [nti_octalField (digits - 1) n.toNat [] (by omega)]
    rw [Int.toNat_of_nonneg hoct.1]
  · rename_i hoct
    split at hok
    · rename_i hgnu
      cases hok
      show nti ((if 0 ≤ n then 128 else 255) ::
          beBytesInt (digits - 1) (if 0 ≤ n then n else wrap64 (-n))) = .ok n
      by_cases hpos : 0 ≤ n
      · -- non-negative base-256 value
        rw [if_pos hpos, if_pos hpos]
        simp only [nti]
        norm_num
        rw [foldW_eq_wrap64 _ 0 (by norm_num) (by norm_num), foldN_beBytesInt]
        rw [zero_mul, zero_add, Int.emod_eq_of_lt hpos hgnu.2.2,
          wrap64_of_range n hlo hhi]
      · -- negative value
        rw [if_neg hpos, if_neg hpos]
        simp only [nti]
        norm_num
        rw [foldW_eq_wrap64 _ 0 (by norm_num) (by norm_num), foldN_beBytesInt,
          zero_mul, zero_add]
        by_cases hmin : n = -2 ^ 63
        · -- the int64 minimum: double wraparound restores the value
          have h63 : (2 : Int) ^ 63 ≤ 256 ^ (digits - 1) := by
            have h := hgnu.2.1
            omega
          have hk8 : 8 ≤ digits - 1 := by
            by_contra hk8
            have hle : (256 : Int) ^ (digits - 1) ≤ 256 ^ 7 := by
              apply pow_le_pow_right₀ (by norm_num)
              omega
            norm_num at hle
            omega
          have hdvd : ((2 : Int) ^ 64) ∣ 256 ^ (digits - 1) := by
            have h256 : (256 : Int) ^ (digits - 1) = 2 ^ (8 * (digits - 1)) := by
              rw [show (256 : Int) = 2 ^ 8 from by norm_num, ← pow_mul]
            rw [h256]
            exact pow_dvd_pow 2 (by omega)
          have hw2 : wrap64 (-n) = -2 ^ 63 := by
            rw [hmin, wrap64]
            omega
          rw [hw2]
          have hmod : (-2 ^ 63 : Int) % 256 ^ (digits - 1) =
              256 ^ (digits - 1) - 2 ^ 63 := by
            rw [show (-2 ^ 63 : Int) =
              (256 ^ (digits - 1) - 2 ^ 63) + 256 ^ (digits - 1) * (-1) from by
                ring]
            rw [Int.add_mul_emod_self_left]
            exact Int.emod_eq_of_lt (by omega) (by omega)
          rw [hmod]
          obtain ⟨q, hq⟩ := hdvd
          have hwm : wrap64 (256 ^ (digits - 1) - 2 ^ 63) = -2 ^ 63 := by
            rw [wrap64, hq]
            rw [show (2 : Int) ^ 64 * q - 2 ^ 63 + 2 ^ 63 = 2 ^ 64 * q from by
              ring]
            rw [Int.mul_emod_right]
            norm_num
          have hfin : wrap64 (-(-2 ^ 63 : Int)) = -2 ^ 63 := by
            rw [wrap64]
            omega
          rw [hwm, hfin, hmin]
        · -- ordinary negative value: the magnitude fits strictly
          have hm1 : 0 < -n := by omega
          have hm2 : -n < 256 ^ (digits - 1) := by
            rcases lt_or_eq_of_le hgnu.2.1 with h | h
            · omega
            · exact absurd h.symm hnb
          have hw2 : wrap64 (-n) = -n :=
            wrap64_of_range _ (by omega) (by omega)
          rw [hw2, Int.emod_eq_of_lt (by omega) hm2, hw2, neg_neg,
            wrap64_of_range n hlo hhi]
    · simp at hok

/-- Counterexample to C9 as stated: the negative boundary value
`n = -(256^7) = -2^56` with `digits = 8` is accepted by `itn` (the Go guard
uses `<=` on the negative side) but its magnitude needs eight bytes, one more
than the seven available, so the stored bytes are all zero and `nti` decodes
the field to 0, not `n`. -/
theorem C9_roundtrip_counterexample :
    itn (-(2 ^ 56)) 8 GNU_FORMAT = .ok [255, 0, 0, 0, 0, 0, 0, 0] ∧
    nti [255, 0, 0, 0, 0, 0, 0, 0] = .ok 0 ∧
    (0 : Int) ≠ -(2 ^ 56) := by
  refine ⟨by decide, by decide, by decide⟩

/-- Witness for the amended C9 roundtrip at `n = -2^40`, `digits = 8`. -/
theorem C9_roundtrip_amended_witness :
    nti [255, 0, 1, 0, 0, 0, 0, 0] = .ok (-2 ^ 40) := by
  exact C9_roundtrip_amended (-2 ^ 40) 8 [255, 0, 1, 0, 0, 0, 0, 0]
    (by norm_num) (by norm_num) (by decide) (by norm_num)

/- C10: ExFileObject.Read clamping. -/

theorem efoRun_bound (size : Int) (rs : List (Int × Option RdErr)) :
    ∀ pos : Int,
      (∀ r ∈ rs, 0 ≤ r.1 ∧ r.2 ≠ some RdErr.hardE) →
      0 ≤ pos → pos ≤ size →
      (efoRun size pos rs).1 + pos ≤ size ∧
      pos ≤ (efoRun size pos rs).2 ∧ (efoRun size pos rs).2 ≤ size := by
  induction rs with
  | nil =>
    intro pos _ h0 hs
    simp only [efoRun]
    omega
  | cons r rs ih =>
    intro pos hok h0 hs
    have hr := hok r (by simp)
    have hrs : ∀ x ∈ rs, 0 ≤ x.1 ∧ x.2 ≠ some RdErr.hardE :=
      fun x hx => hok x (by simp [hx])
    by_cases hsz : size ≤ pos
    · have h1 : efoRead size pos r.1 r.2 = (0, some RdErr.eofE, pos) := by
        rw [efoRead, if_pos hsz]
      simp only [efoRun, h1]
      have h2 := ih pos hrs h0 hs
      omega
    · have h1 : efoRead size pos r.1 r.2 =
          (if size - pos < r.1 then size - pos else r.1, r.2,
            pos + (if size - pos < r.1 then size - pos else r.1)) := by
        rw [efoRead, if_neg hsz, if_neg hr.2]
      simp only [efoRun, h1]
      have hb : 0 ≤ (if size - pos < r.1 then size - pos else r.1) ∧
          (if size - pos < r.1 then size - pos else r.1) ≤ size - pos := by
        split
        · omega
        · omega
      have h2 := ih (pos + (if size - pos < r.1 then size - pos else r.1))
        hrs (by omega) (by omega)
      omega

/-- C10: the reported byte counts of `ExFileObject.Read` are clamped to the
member's size: over any sequence of calls whose underlying file reads succeed
(non-negative counts, no hard I/O error), the cumulative reported count from
position 0 never exceeds `Size`; a call at or past `Size` reports 0 bytes with
`io.EOF` and does not move; and a call that crosses the member's end reports
exactly `Size - pos` bytes and lands exactly at `Size`. -/
theorem C10_read_clamping (size : Int) (rs : List (Int × Option RdErr))
    (hsz : 0 ≤ size)
    (hok : ∀ r ∈ rs, 0 ≤ r.1 ∧ r.2 ≠ some RdErr.hardE) :
    (efoRun size 0 rs).1 ≤ size ∧
    (∀ pos n err, size ≤ pos →
      efoRead size pos n err = (0, some RdErr.eofE, pos)) ∧
    (∀ pos n err, ¬ size ≤ pos → err ≠ some RdErr.hardE → size - pos < n →
      (efoRead size pos n err).1 = size - pos ∧
      (efoRead size pos n err).2.2 = size) := by
  refine ⟨?_, ?_, ?_⟩
  · have h := (efoRun_bound size rs 0 hok le_rfl hsz).1
    omega
  · intro pos n err h
    rw [efoRead, if_pos h]
  · intro pos n err h1 h2 h3
    simp only [efoRead, if_neg h1, if_neg h2]
    rw [if_pos h3]
    refine ⟨rfl, ?_⟩
    show pos + (size - pos) = size
    ring

/-- Witness for C10 at `Size = 13` with underlying reads of 8 and 8 bytes:
the second call is clamped to 5, the total is 13, and a call at `pos = 13`
returns the EOF sentinel. -/
theorem C10_read_clamping_witness :
    (efoRun 13 0 [(8, none), (8, some RdErr.eofE)]).1 ≤ 13 ∧
    efoRead 13 13 0 none = (0, some RdErr.eofE, 13) ∧
    (efoRead 13 8 8 none).1 = 13 - 8 := by
  obtain ⟨h1, h2, h3⟩ := C10_read_clamping 13 [(8, none), (8, some RdErr.eofE)]
    (by norm_num) (by decide)
  exact ⟨h1, h2 13 0 none le_rfl,
    (h3 8 8 none (by norm_num) (by decide) (by norm_num)).1⟩

/- C4: single-byte corruption outside the checksum field is detected. -/

theorem bind_ok_inv {α β : Type} {e : Except GErr α} {k : α → Except GErr β}
    {b : β} (h : e >>= k = .ok b) : ∃ v, e = .ok v ∧ k v = .ok b := by
  cases e with
  | error er => simp [Bind.bind, Except.bind] at h
  | ok v => exact ⟨v, rfl, by simpa [Bind.bind, Except.bind] using h⟩

theorem asStr_ok_inv {o : Option GoVal} {s : List Nat} (h : asStr o = .ok s) :
    o = some (.vStr s) := by
  match o with
  | some (.vStr t) => simp [asStr] at h; rw [h]
  | some (.vInt n) => simp [asStr] at h
  | some (.vInt64 n) => simp [asStr] at h
  | none => simp [asStr] at h

theorem stn_length (s : List Nat) (n : Nat) : (stn s n).length = n := by
  simp only [stn, List.length_append, List.length_take, List.length_replicate]
  omega

theorem stn_mem (s : List Nat) (n : Nat) : ∀ b ∈ stn s n, b ∈ s ∨ b = 0 := by
  intro b hb
  rw [stn, List.mem_append] at hb
  cases hb with
  | inl h => exact Or.inl (List.take_subset n s h)
  | inr h => exact Or.inr (List.eq_of_mem_replicate h)

theorem octalStrF_length_le (fuel : Nat) :
    ∀ n d : Nat, n ≤ fuel → 1 ≤ d → n < 8 ^ d →
      (octalStrF fuel n).length ≤ d := by
  induction fuel with
  | zero =>
    intro n d hn hd _
    interval_cases n
    simp [octalStrF]
    omega
  | succ f ih =>
    intro n d hn hd h8
    rw [octalStrF]
    split
    · simp
      omega
    · rename_i h
      have hd2 : 2 ≤ d := by
        by_contra hc
        interval_cases d
        omega
      rw [List.length_append, List.length_singleton]
      have := ih (n / 8) (d - 1) (by omega) (by omega) (by
        have : 8 ^ d = 8 ^ (d - 1) * 8 := by
          rw [← pow_succ]
          congr 1
          omega
        omega)
      omega

theorem octalPad_length_of_lt (w n : Nat) (hw : 1 ≤ w) (h : n < 8 ^ w) :
    (octalPad w n).length = w := by
  have hl : (octalStr n).length ≤ w :=
    octalStrF_length_le n n w le_rfl hw h
  simp only [octalPad, List.length_append, List.length_replicate]
  omega

theorem beBytesInt_length (k : Nat) : ∀ n : Int, (beBytesInt k n).length = k := by
  induction k with
  | zero => intro n; rfl
  | succ j ih =>
    intro n
    rw [beBytesInt, List.length_append, ih]
    simp

theorem beBytesInt_mem (k : Nat) : ∀ (n : Int), ∀ b ∈ beBytesInt k n, b < 256 := by
  induction k with
  | zero => intro n b hb; simp [beBytesInt] at hb
  | succ j ih =>
    intro n b hb
    rw [beBytesInt, List.mem_append] at hb
    cases hb with
    | inl h => exact ih _ b h
    | inr h =>
      simp only [List.mem_singleton] at h
      subst h
      have h1 : (0 : Int) ≤ n % 256 := Int.emod_nonneg n (by norm_num)
      have h2 : n % 256 < 256 := Int.emod_lt_of_pos n (by norm_num)
      omega

theorem itn_ok_length {n : Int} {digits : Nat} {format : Nat} {f : List Nat}
    (h2 : 2 ≤ digits) (h : itn n digits format = .ok f) : f.length = digits := by
  rw [itn] at h
  split at h
  · rename_i hoct
    cases h
    rw [List.length_append, List.length_singleton,
      octalPad_length_of_lt _ _ (by omega) (by
        have hcast : (((8 : Nat) ^ (digits - 1) : Nat) : Int) =
            (8 : Int) ^ (digits - 1) := by
          push_cast
          ring
        omega)]
    omega
  · split at h
    · cases h
      rw [List.length_cons, beBytesInt_length]
      omega
    · simp at h

theorem itn_ok_bytes {n : Int} {digits : Nat} {format : Nat} {f : List Nat}
    (h : itn n digits format = .ok f) : ∀ b ∈ f, b < 256 := by
  rw [itn] at h
  split at h
  · cases h
    intro b hb
    rw [List.mem_append] at hb
    cases hb with
    | inl hm => have := octalPad_digits _ _ b hm; omega
    | inr hm => simp only [List.mem_singleton] at hm; omega
  · split at h
    · cases h
      intro b hb
      rw [List.mem_cons] at hb
      cases hb with
      | inl hm => split at hm <;> omega
      | inr hm => exact beBytesInt_mem _ _ b hm
    · simp at h

theorem splitOnByte_ne_nil (sep : Nat) (s : List Nat) :
    splitOnByte sep s ≠ [] := by
  cases s with
  | nil => simp [splitOnByte]
  | cons b t =>
    rw [splitOnByte]
    cases hsp : splitOnByte sep t with
    | nil => simp
    | cons x r =>
      show (if b = sep then [] :: x :: r else (b :: x) :: r) ≠ []
      split
      · simp
      · simp

theorem splitOnByte_mem (sep : Nat) :
    ∀ s piece, piece ∈ splitOnByte sep s → ∀ b ∈ piece, b ∈ s := by
  intro s
  induction s with
  | nil =>
    intro piece hp b hb
    simp [splitOnByte] at hp
    subst hp
    simp at hb
  | cons a t ih =>
    intro piece hp b hb
    cases hsp : splitOnByte sep t with
    | nil => exact absurd hsp (splitOnByte_ne_nil sep t)
    | cons h r =>
      have hp' : piece ∈ (if a = sep then ([] : List Nat) :: h :: r
          else (a :: h) :: r) := by
        rw [splitOnByte, hsp] at hp
        exact hp
      split at hp'
      · rcases List.mem_cons.1 hp' with h1 | h1
        · subst h1; simp at hb
        · exact List.mem_cons_of_mem a (ih piece (by rw [hsp]; exact h1) b hb)
      · rcases List.mem_cons.1 hp' with h1 | h1
        · subst h1
          rcases List.mem_cons.1 hb with h2 | h2
          · exact List.mem_cons.2 (Or.inl h2)
          · exact List.mem_cons_of_mem a
              (ih h (by rw [hsp]; exact List.mem_cons_self h r) b h2)
        · exact List.mem_cons_of_mem a
            (ih piece (by rw [hsp]; exact List.mem_cons_of_mem h h1) b hb)

theorem joinWith_mem (sep : List Nat) :
    ∀ pieces, ∀ b ∈ joinWith sep pieces, (∃ p ∈ pieces, b ∈ p) ∨ b ∈ sep := by
  intro pieces
  induction pieces with
  | nil => intro b hb; simp [joinWith] at hb
  | cons x ys ih =>
    intro b hb
    cases ys with
    | nil =>
      exact Or.inl ⟨x, by simp, by simpa [joinWith] using hb⟩
    | cons y t =>
      rw [joinWith, List.mem_append, List.mem_append] at hb
      rcases hb with (h1 | h1) | h1
      · exact Or.inl ⟨x, by simp, h1⟩
      · exact Or.inr h1
      · rcases ih b h1 with ⟨p, hp, hbp⟩ | hs
        · exact Or.inl ⟨p, List.mem_cons_of_mem x hp, hbp⟩
        · exact Or.inr hs

theorem splitLoop_ok_mem (cs : List (List Nat)) :
    ∀ (fuel i : Nat) (pr : List Nat × List Nat),
      splitLoop cs fuel i = .ok pr →
      ∀ b, (b ∈ pr.1 ∨ b ∈ pr.2) → (∃ p ∈ cs, b ∈ p) ∨ b = 47 := by
  intro fuel
  induction fuel with
  | zero => intro i pr h; simp [splitLoop] at h
  | succ f ih =>
    intro i pr h b hb
    rw [splitLoop] at h
    split at h
    · have h' : (if (joinWith [47] (cs.take i)).length ≤ LENGTH_PFX ∧
          (joinWith [47] (cs.drop i)).length ≤ LENGTH_NAME then
          Except.ok (joinWith [47] (cs.take i), joinWith [47] (cs.drop i))
          else splitLoop cs f (i + 1)) = Except.ok pr := h
      clear h
      split at h'
      · cases h'
        have hj : ∀ piece, (piece ∈ cs.take i ∨ piece ∈ cs.drop i) →
            piece ∈ cs := fun piece hp => by
          cases hp with
          | inl h1 => exact List.take_subset i cs h1
          | inr h1 => exact List.drop_subset i cs h1
        cases hb with
        | inl h1 =>
          rcases joinWith_mem [47] _ b h1 with ⟨p, hp, hbp⟩ | hs
          · exact Or.inl ⟨p, hj p (Or.inl hp), hbp⟩
          · simp at hs; omega
        | inr h1 =>
          rcases joinWith_mem [47] _ b h1 with ⟨p, hp, hbp⟩ | hs
          · exact Or.inl ⟨p, hj p (Or.inr hp), hbp⟩
          · simp at hs; omega
      · exact ih (i + 1) pr h' b hb
    · simp at h

theorem posixSplitName_mem {name : List Nat} {pr : List Nat × List Nat}
    (h : posixSplitName name = .ok pr) :
    ∀ b, (b ∈ pr.1 ∨ b ∈ pr.2) → b ∈ name ∨ b = 47 := by
  intro b hb
  rw [posixSplitName] at h
  rcases splitLoop_ok_mem _ _ _ _ h b hb with ⟨p, hp, hbp⟩ | h47
  · exact Or.inl (splitOnByte_mem 47 name p hp b hbp)
  · exact Or.inr h47

theorem calcSumFrom_nonneg : ∀ (i : Nat) (l : List Nat), 0 ≤ calcSumFrom i l := by
  intro i l
  induction l generalizing i with
  | nil => simp [calcSumFrom]
  | cons a t ih =>
    rw [calcSumFrom]
    have := ih (i + 1)
    split
    · omega
    · have : (0 : Int) ≤ (a : Int) := by positivity
      omega

theorem calcSumFrom_le (l : List Nat) (hb : ∀ b ∈ l, b < 256) :
    ∀ i : Nat, calcSumFrom i l ≤ 255 * l.length := by
  induction l with
  | nil => intro i; simp [calcSumFrom]
  | cons a t ih =>
    intro i
    rw [calcSumFrom, List.length_cons]
    have h1 := ih (fun b hbm => hb b (List.mem_cons_of_mem a hbm)) (i + 1)
    have h2 : a < 256 := hb a (List.mem_cons_self a t)
    have h3 : ((a : Int)) ≤ 255 := by exact_mod_cast Nat.lt_succ_iff.1 h2
    split
    · push_cast
      omega
    · push_cast
      omega

theorem calcSumFrom_set (l : List Nat) :
    ∀ (i j : Nat) (b' : Nat), j < l.length → ¬ (148 ≤ i + j ∧ i + j < 156) →
      calcSumFrom i (l.set j b') =
        calcSumFrom i l + (b' : Int) - (l.getD j 0 : Int) := by
  induction l with
  | nil => intro i j b' h; simp at h
  | cons a t ih =>
    intro i j b' hj hr
    cases j with
    | zero =>
      simp only [List.set_cons_zero, calcSumFrom, List.getD_cons_zero]
      rw [if_neg (by omega : ¬ (148 ≤ i ∧ i < 156))]
      rw [if_neg (by omega : ¬ (148 ≤ i ∧ i < 156))]
      ring
    | succ j' =>
      simp only [List.set_cons_succ, calcSumFrom, List.getD_cons_succ]
      rw [ih (i + 1) j' b' (by simpa using hj) (by omega)]
      ring

/-- Corrupting one byte outside the checksum field of a block whose stored
checksum field is the rendered recomputation makes decoding fail as invalid. -/
theorem fromBuf_set_invalid (B : List Nat) (k : Nat)
    (hBlen : B.length = 512)
    (hslice : slice B 148 156 = octalPad 6 k ++ [0, 32])
    (hk1 : k ≤ 130816) (hk2 : (k : Int) = calcChecksum B) :
    ∀ i, i < 512 → (i < 148 ∨ 156 ≤ i) → ∀ b',
      b' ≠ B.getD i 0 → FromBuf (B.set i b') = .error .invalidHeader := by
  intro i hi hout b' hne
  have hlen' : (B.set i b').length = 512 := by
    rw [List.length_set]; exact hBlen
  have hslice' : slice (B.set i b') 148 156 = octalPad 6 k ++ [0, 32] := by
    rw [← hslice, slice, slice, List.drop_set]
    cases hout with
    | inl h => rw [if_pos (by omega)]
    | inr h =>
      rw [if_neg (by omega)]
      apply List.ext_getElem
      · simp
      · intro n h1 h2
        simp only [List.getElem_take]
        rw [List.getElem_set_ne (by simp at h1; omega)]
  have hnz : B.set i b' ≠ List.replicate 512 0 := by
    intro hrep
    obtain ⟨b0, bs, he⟩ : ∃ b0 bs, octalPad 6 k = b0 :: bs := by
      cases h : octalPad 6 k with
      | nil => exact absurd h (octalPad_ne_nil 6 k)
      | cons x xs => exact ⟨x, xs, rfl⟩
    have hb0 : 48 ≤ b0 ∧ b0 ≤ 55 := octalPad_digits 6 k b0 (by rw [he]; simp)
    have hmem : b0 ∈ B.set i b' := by
      have hsl : b0 ∈ slice (B.set i b') 148 156 := by
        rw [hslice', he]; simp
      rw [slice] at hsl
      exact List.drop_subset _ _ (List.take_subset _ _ hsl)
    rw [hrep] at hmem
    have := List.eq_of_mem_replicate hmem
    omega
  have hdelta : calcChecksum (B.set i b') =
      calcChecksum B + (b' : Int) - (B.getD i 0 : Int) := by
    rw [calcChecksum, calcChecksum, calcSumFrom_set B 0 i b' (by omega) (by omega)]
    ring
  have hneq : nti (slice (B.set i b') 148 156) ≠
      .ok (calcChecksum (B.set i b')) := by
    rw [hslice',
      show octalPad 6 k ++ [0, 32] = octalPad 6 k ++ 0 :: [32] from rfl,
      nti_octalField 6 k [32] (by omega)]
    intro hc
    simp only [Except.ok.injEq] at hc
    rw [hdelta, ← hk2] at hc
    omega
  exact fromBuf_bad_checksum (B.set i b') hlen' hnz hneq

/-- Shape of `createHeader`'s final splice: overwriting bytes 148..155 of a
512-byte buffer with an 8-byte field whose skipped sum is zero yields a
512-byte block with that field at 148..156 and an unchanged checksum. -/
theorem splice_shape (buf cb : List Nat)
    (hlen : buf.length = 512) (hbytes : ∀ b ∈ buf, b < 256)
    (hcbl : cb.length = 8) (hcbb : ∀ b ∈ cb, b < 256)
    (hcbsum : calcSumFrom 148 cb = 0) :
    ((buf.take 148 ++ cb ++ buf.drop 156).take BLOCKSIZE).length = 512 ∧
    (∀ b ∈ (buf.take 148 ++ cb ++ buf.drop 156).take BLOCKSIZE, b < 256) ∧
    slice ((buf.take 148 ++ cb ++ buf.drop 156).take BLOCKSIZE) 148 156 = cb ∧
    calcChecksum ((buf.take 148 ++ cb ++ buf.drop 156).take BLOCKSIZE) =
      calcChecksum buf := by
  have lA : (buf.take 148).length = 148 := by rw [List.length_take]; omega
  have lD : (buf.drop 156).length = 356 := by rw [List.length_drop]; omega
  have lX : (buf.take 148 ++ cb ++ buf.drop 156).length = 512 := by
    simp only [List.length_append]
    omega
  have hXfull : (buf.take 148 ++ cb ++ buf.drop 156).take BLOCKSIZE =
      buf.take 148 ++ cb ++ buf.drop 156 :=
    List.take_of_length_le (by rw [lX]; decide)
  rw [hXfull]
  have lM : ((buf.drop 148).take 8).length = 8 := by
    rw [List.length_take, List.length_drop]; omega
  have hdd : (buf.drop 148).drop 8 = buf.drop 156 := by
    rw [List.drop_drop]
  have hbufsplit : buf = buf.take 148 ++ ((buf.drop 148).take 8 ++ buf.drop 156) := by
    conv_lhs => rw [← List.take_append_drop 148 buf]
    congr 1
    conv_lhs => rw [← List.take_append_drop 8 (buf.drop 148)]
    rw [hdd]
  have hsumM : calcSumFrom 148 ((buf.drop 148).take 8) = 0 :=
    (sums_inside _ 148 (fun j hj => by rw [lM] at hj; omega)).2
  have h1 : calcSumFrom 0 (buf.take 148 ++ cb ++ buf.drop 156) =
      calcSumFrom 0 (buf.take 148) + calcSumFrom 148 cb +
        calcSumFrom 156 (buf.drop 156) := by
    rw [calcSumFrom_append, calcSumFrom_append]
    rw [List.length_append, lA, hcbl]
  have h2 : calcSumFrom 0 buf =
      calcSumFrom 0 (buf.take 148) + calcSumFrom 148 ((buf.drop 148).take 8) +
        calcSumFrom 156 (buf.drop 156) := by
    conv_lhs => rw [hbufsplit]
    rw [calcSumFrom_append, calcSumFrom_append]
    rw [lA, lM]
    ring
  refine ⟨lX, ?_, ?_, ?_⟩
  · intro b hb
    rcases List.mem_append.1 hb with h' | h'
    · rcases List.mem_append.1 h' with h2' | h2'
      · exact hbytes b (List.take_subset _ _ h2')
      · exact hcbb b h2'
    · exact hbytes b (List.drop_subset _ _ h')
  · rw [slice, List.append_assoc, List.drop_left' lA,
      List.take_left' (by rw [hcbl])]
  · rw [calcChecksum, calcChecksum, h1, h2, hcbsum, hsumM]

set_option maxHeartbeats 2000000 in
/-- `createHeader` cannot succeed when the info map has no "prefix" key: the
`info["prefix"].(string)` assertion panics. -/
theorem createHeader_missing_pfx (info : Info) (format : Nat)
    (hnopfx : Info.get info "prefix" = none) (B : List Nat)
    (hok : createHeader info format = .ok B) : False := by
  rw [createHeader] at hok
  obtain ⟨dM, hdM, hok⟩ := bind_ok_inv hok
  obtain ⟨dm, hdm, hok⟩ := bind_ok_inv hok
  obtain ⟨ft, hft, hok⟩ := bind_ok_inv hok
  obtain ⟨nm, hnm, hok⟩ := bind_ok_inv hok
  obtain ⟨mv, hmv, hok⟩ := bind_ok_inv hok
  obtain ⟨p1, hp1, hok⟩ := bind_ok_inv hok
  obtain ⟨uv, huv, hok⟩ := bind_ok_inv hok
  obtain ⟨p2, hp2, hok⟩ := bind_ok_inv hok
  obtain ⟨gv, hgv, hok⟩ := bind_ok_inv hok
  obtain ⟨p3, hp3, hok⟩ := bind_ok_inv hok
  obtain ⟨sv, hsv, hok⟩ := bind_ok_inv hok
  obtain ⟨p4, hp4, hok⟩ := bind_ok_inv hok
  obtain ⟨tv, htv, hok⟩ := bind_ok_inv hok
  obtain ⟨p5, hp5, hok⟩ := bind_ok_inv hok
  obtain ⟨lk, hlk, hok⟩ := bind_ok_inv hok
  obtain ⟨mg, hmg, hok⟩ := bind_ok_inv hok
  obtain ⟨un, hun2, hok⟩ := bind_ok_inv hok
  obtain ⟨gn, hgn2, hok⟩ := bind_ok_inv hok
  obtain ⟨pf, hpf, hok⟩ := bind_ok_inv hok
  rw [hnopfx] at hpf
  simp [asStr] at hpf

set_option maxHeartbeats 2000000 in
/-- Inversion of a successful `createHeader`: the produced block is 512 bytes
of byte values, carries the rendered recomputed checksum at offsets 148..156,
and that checksum is bounded and agrees with the block's own recomputation. -/
theorem createHeader_shape (info : Info) (format : Nat) (B : List Nat)
    (hBname : ∀ s, Info.get info "name" = some (.vStr s) → ∀ b ∈ s, b < 256)
    (hBtype : ∀ s, Info.get info "type" = some (.vStr s) →
      s.length = 1 ∧ ∀ b ∈ s, b < 256)
    (hBlink : ∀ s, Info.get info "linkname" = some (.vStr s) → ∀ b ∈ s, b < 256)
    (hBmagic : ∀ s, Info.get info "magic" = some (.vStr s) →
      s.length = 7 ∧ ∀ b ∈ s, b < 256)
    (hBuname : ∀ s, Info.get info "uname" = some (.vStr s) → ∀ b ∈ s, b < 256)
    (hBgname : ∀ s, Info.get info "gname" = some (.vStr s) → ∀ b ∈ s, b < 256)
    (hBpfx : ∀ s, Info.get info "prefix" = some (.vStr s) → ∀ b ∈ s, b < 256)
    (hok : createHeader info format = .ok B) :
    ∃ k : Nat, B.length = 512 ∧ (∀ b ∈ B, b < 256) ∧
      slice B 148 156 = octalPad 6 k ++ [0, 32] ∧
      k ≤ 130816 ∧ (k : Int) = calcChecksum B := by
  rw [createHeader] at hok
  obtain ⟨dM, hdM, hok⟩ := bind_ok_inv hok
  obtain ⟨dm, hdm, hok⟩ := bind_ok_inv hok
  obtain ⟨ft, hft, hok⟩ := bind_ok_inv hok
  obtain ⟨nm, hnm, hok⟩ := bind_ok_inv hok
  obtain ⟨mv, hmv, hok⟩ := bind_ok_inv hok
  obtain ⟨p1, hp1, hok⟩ := bind_ok_inv hok
  obtain ⟨uv, huv, hok⟩ := bind_ok_inv hok
  obtain ⟨p2, hp2, hok⟩ := bind_ok_inv hok
  obtain ⟨gv, hgv, hok⟩ := bind_ok_inv hok
  obtain ⟨p3, hp3, hok⟩ := bind_ok_inv hok
  obtain ⟨sv, hsv, hok⟩ := bind_ok_inv hok
  obtain ⟨p4, hp4, hok⟩ := bind_ok_inv hok
  obtain ⟨tv, htv, hok⟩ := bind_ok_inv hok
  obtain ⟨p5, hp5, hok⟩ := bind_ok_inv hok
  obtain ⟨lk, hlk, hok⟩ := bind_ok_inv hok
  obtain ⟨mg, hmg, hok⟩ := bind_ok_inv hok
  obtain ⟨un, hun2, hok⟩ := bind_ok_inv hok
  obtain ⟨gn, hgn2, hok⟩ := bind_ok_inv hok
  obtain ⟨pf, hpf, hok⟩ := bind_ok_inv hok
  injection hok with hB
  subst hB
  have hnmB : ∀ b ∈ nm, b < 256 := hBname nm (asStr_ok_inv hnm)
  have hftF := hBtype ft (asStr_ok_inv hft)
  have hlkB : ∀ b ∈ lk, b < 256 := hBlink lk (asStr_ok_inv hlk)
  have hmgF := hBmagic mg (asStr_ok_inv hmg)
  have hunB : ∀ b ∈ un, b < 256 := hBuname un (asStr_ok_inv hun2)
  have hgnB : ∀ b ∈ gn, b < 256 := hBgname gn (asStr_ok_inv hgn2)
  have hpfB : ∀ b ∈ pf, b < 256 := hBpfx pf (asStr_ok_inv hpf)
  have hdMf : dM.length = 8 ∧ ∀ b ∈ dM, b < 256 := by
    rw [devField] at hdM
    split at hdM
    · obtain ⟨v, hv, hdM⟩ := bind_ok_inv hdM
      exact ⟨itn_ok_length (by norm_num) hdM, itn_ok_bytes hdM⟩
    · cases hdM
      refine ⟨stn_length [] 8, ?_⟩
      intro b hb
      rcases stn_mem [] 8 b hb with h | h
      · simp at h
      · omega
  have hdmf : dm.length = 8 ∧ ∀ b ∈ dm, b < 256 := by
    rw [devField] at hdm
    split at hdm
    · obtain ⟨v, hv, hdm⟩ := bind_ok_inv hdm
      exact ⟨itn_ok_length (by norm_num) hdm, itn_ok_bytes hdm⟩
    · cases hdm
      refine ⟨stn_length [] 8, ?_⟩
      intro b hb
      rcases stn_mem [] 8 b hb with h | h
      · simp at h
      · omega
  have hp1l : p1.length = 8 := itn_ok_length (by norm_num) hp1
  have hp2l : p2.length = 8 := itn_ok_length (by norm_num) hp2
  have hp3l : p3.length = 8 := itn_ok_length (by norm_num) hp3
  have hp4l : p4.length = 12 := itn_ok_length (by norm_num) hp4
  have hp5l : p5.length = 12 := itn_ok_length (by norm_num) hp5
  set joined := stn nm 100 ++ p1 ++ p2 ++ p3 ++ p4 ++ p5 ++
    List.replicate 8 32 ++ ft ++ stn lk 100 ++ mg ++ stn un 32 ++
    stn gn 32 ++ dM ++ dm ++ stn pf 155 with hj
  have hjl : joined.length = 499 := by
    rw [hj]
    simp only [List.length_append, stn_length, List.length_replicate,
      hp1l, hp2l, hp3l, hp4l, hp5l, hdMf.1, hdmf.1, hftF.1, hmgF.1]
  have hjb : ∀ b ∈ joined, b < 256 := by
    rw [hj]
    intro b hb
    simp only [List.mem_append] at hb
    rcases hb with
      (((((((((((((h|h)|h)|h)|h)|h)|h)|h)|h)|h)|h)|h)|h)|h)|h
    · rcases stn_mem nm 100 b h with h' | h'
      · exact hnmB b h'
      · omega
    · exact itn_ok_bytes hp1 b h
    · exact itn_ok_bytes hp2 b h
    · exact itn_ok_bytes hp3 b h
    · exact itn_ok_bytes hp4 b h
    · exact itn_ok_bytes hp5 b h
    · rw [List.eq_of_mem_replicate h]; norm_num
    · exact hftF.2 b h
    · rcases stn_mem lk 100 b h with h' | h'
      · exact hlkB b h'
      · omega
    · exact hmgF.2 b h
    · rcases stn_mem un 32 b h with h' | h'
      · exact hunB b h'
      · omega
    · rcases stn_mem gn 32 b h with h' | h'
      · exact hgnB b h'
      · omega
    · exact hdMf.2 b h
    · exact hdmf.2 b h
    · rcases stn_mem pf 155 b h with h' | h'
      · exact hpfB b h'
      · omega
  set bufX := joined ++ List.replicate (BLOCKSIZE - joined.length) 0 with hbe
  have hbufl : bufX.length = 512 := by
    rw [hbe, List.length_append, List.length_replicate, hjl]
    decide
  have hbufb : ∀ b ∈ bufX, b < 256 := by
    rw [hbe]
    intro b hb
    rcases List.mem_append.1 hb with h | h
    · exact hjb b h
    · rw [List.eq_of_mem_replicate h]; norm_num
  have hc0 : 0 ≤ calcChecksum bufX := by
    rw [calcChecksum]
    have := calcSumFrom_nonneg 0 bufX
    omega
  have hcle : calcChecksum bufX ≤ 130816 := by
    rw [calcChecksum]
    have := calcSumFrom_le bufX hbufb 0
    rw [hbufl] at this
    omega
  have hkle : (calcChecksum bufX).toNat ≤ 130816 := by omega
  have hcbl : (octalPad 6 (calcChecksum bufX).toNat ++ [0, 32]).length = 8 := by
    rw [List.length_append, octalPad_length_of_lt 6 _ (by norm_num) (by omega)]
    rfl
  have hcbb : ∀ b ∈ octalPad 6 (calcChecksum bufX).toNat ++ [0, 32], b < 256 := by
    intro b hb
    rcases List.mem_append.1 hb with h | h
    · have := octalPad_digits 6 _ b h
      omega
    · simp at h
      omega
  have hcbsum : calcSumFrom 148 (octalPad 6 (calcChecksum bufX).toNat ++ [0, 32]) = 0 :=
    (sums_inside _ 148 (fun j hj => by rw [hcbl] at hj; omega)).2
  obtain ⟨hBl, hBb, hsl, hck⟩ :=
    splice_shape bufX (octalPad 6 (calcChecksum bufX).toNat ++ [0, 32])
      hbufl hbufb hcbl hcbb hcbsum
  exact ⟨(calcChecksum bufX).toNat, hBl, hBb, hsl, hkle, by
    rw [Int.toNat_of_nonneg hc0, hck]⟩

theorem getInfo_type (ti : TarInfo) :
    Info.get (GetInfo ti) "type" = some (.vStr ti.Typ) := by
  rw [GetInfo]
  split
  · rfl
  · rfl

theorem getInfo_linkname (ti : TarInfo) :
    Info.get (GetInfo ti) "linkname" = some (.vStr ti.Linkname) := by
  rw [GetInfo]
  split
  · rfl
  · rfl

theorem getInfo_uname (ti : TarInfo) :
    Info.get (GetInfo ti) "uname" = some (.vStr ti.Uname) := by
  rw [GetInfo]
  split
  · rfl
  · rfl

theorem getInfo_gname (ti : TarInfo) :
    Info.get (GetInfo ti) "gname" = some (.vStr ti.Gname) := by
  rw [GetInfo]
  split
  · rfl
  · rfl

theorem getInfo_prefix_none (ti : TarInfo) :
    Info.get (GetInfo ti) "prefix" = none := by
  rw [GetInfo]
  split
  · rfl
  · rfl

theorem getInfo_name (ti : TarInfo) :
    ∃ nm, Info.get (GetInfo ti) "name" = some (.vStr nm) ∧
      (nm = ti.Name ∨ nm = ti.Name ++ [47]) := by
  rw [GetInfo]
  split
  · exact ⟨ti.Name ++ [47], rfl, Or.inr rfl⟩
  · exact ⟨ti.Name, rfl, Or.inl rfl⟩

set_option maxHeartbeats 1000000 in
/-- C4: for a header record serialized under USTAR format (with byte-valued
string fields and a one-byte type tag, as every real record has), changing any
single byte of the produced 512-byte block at an offset outside the checksum
field (offsets 148..155) to any different value makes decoding the modified
block fail with an InvalidHeaderError. -/
theorem C4_bitflip_invalid (ti : TarInfo) (ord : List String) (B : List Nat)
    (hname : ∀ b ∈ ti.Name, b < 256) (hlink : ∀ b ∈ ti.Linkname, b < 256)
    (hunm : ∀ b ∈ ti.Uname, b < 256) (hgnm : ∀ b ∈ ti.Gname, b < 256)
    (htyp : ti.Typ.length = 1 ∧ ∀ b ∈ ti.Typ, b < 256)
    (hok : ToBuf ti USTAR_FORMAT ord = .ok B) :
    ∀ i, i < 512 → (i < 148 ∨ 156 ≤ i) → ∀ b', b' < 256 →
      b' ≠ B.getD i 0 → FromBuf (B.set i b') = .error .invalidHeader := by
  have hok2 : createUstarHeader (GetInfo ti) = .ok B := hok
  rw [createUstarHeader] at hok2
  obtain ⟨lkS, hlkS, hok2⟩ := bind_ok_inv hok2
  split at hok2
  · simp at hok2
  · obtain ⟨nmS, hnmS, hok2⟩ := bind_ok_inv hok2
    split at hok2
    · obtain ⟨pr, hpr, hok2⟩ := bind_ok_inv hok2
      obtain ⟨nm0, hnm0g, hnm0e⟩ := getInfo_name ti
      have hnmS2 : nmS = nm0 := by
        rw [Info.get_set_ne _ _ _ _ (by decide), hnm0g] at hnmS
        simp [asStr] at hnmS
        exact hnmS.symm
      have hnmSb : ∀ b ∈ nmS, b < 256 := by
        rw [hnmS2]
        rcases hnm0e with h | h <;> rw [h]
        · exact hname
        · intro b hb
          rcases List.mem_append.1 hb with h' | h'
          · exact hname b h'
          · simp at h'; omega
      have hprb : ∀ b, (b ∈ pr.1 ∨ b ∈ pr.2) → b < 256 := by
        intro b hb
        rcases posixSplitName_mem hpr b hb with h | h
        · exact hnmSb b h
        · omega
      obtain ⟨k, hBl, hBb, hsl, hk1, hk2⟩ := createHeader_shape _ _ B
        (by
          intro s hs
          rw [Info.get_set_self] at hs
          injection hs with hs
          injection hs with hs
          intro b hb
          exact hprb b (Or.inr (hs ▸ hb)))
        (by
          intro s hs
          rw [Info.get_set_ne _ _ _ _ (by decide),
            Info.get_set_ne _ _ _ _ (by decide),
            Info.get_set_ne _ _ _ _ (by decide), getInfo_type] at hs
          injection hs with hs
          injection hs with hs
          exact hs ▸ htyp)
        (by
          intro s hs
          rw [Info.get_set_ne _ _ _ _ (by decide),
            Info.get_set_ne _ _ _ _ (by decide),
            Info.get_set_ne _ _ _ _ (by decide), getInfo_linkname] at hs
          injection hs with hs
          injection hs with hs
          exact hs ▸ hlink)
        (by
          intro s hs
          rw [Info.get_set_ne _ _ _ _ (by decide),
            Info.get_set_ne _ _ _ _ (by decide),
            Info.get_set_self] at hs
          injection hs with hs
          injection hs with hs
          rw [← hs]
          exact ⟨by decide, by decide⟩)
        (by
          intro s hs
          rw [Info.get_set_ne _ _ _ _ (by decide),
            Info.get_set_ne _ _ _ _ (by decide),
            Info.get_set_ne _ _ _ _ (by decide), getInfo_uname] at hs
          injection hs with hs
          injection hs with hs
          exact hs ▸ hunm)
        (by
          intro s hs
          rw [Info.get_set_ne _ _ _ _ (by decide),
            Info.get_set_ne _ _ _ _ (by decide),
            Info.get_set_ne _ _ _ _ (by decide), getInfo_gname] at hs
          injection hs with hs
          injection hs with hs
          exact hs ▸ hgnm)
        (by
          intro s hs
          rw [Info.get_set_ne _ _ _ _ (by decide),
            Info.get_set_self] at hs
          injection hs with hs
          injection hs with hs
          intro b hb
          exact hprb b (Or.inl (hs ▸ hb)))
        hok2
      exact fun i hi hout b' _ hne =>
        fromBuf_set_invalid B k hBl hsl hk1 hk2 i hi hout b' hne
    · exact absurd hok2 (fun hc => createHeader_missing_pfx _ _ (by
        rw [Info.get_set_ne _ _ _ _ (by decide)]
        exact getInfo_prefix_none ti) B hc)

theorem ok_of_isOkE (e : Except GErr (List Nat)) (h : isOkE e = true) :
    e = .ok (okD e) := by
  cases e with
  | error er => simp [isOkE] at h
  | ok v => rfl

set_option maxHeartbeats 1000000 in
/-- Witness for C4 at the concrete record `tiC4`: its USTAR serialization
produces a block, and flipping the block's first byte (a name byte, 98) to
107 is rejected as an InvalidHeaderError. -/
theorem C4_bitflip_invalid_witness :
    ToBuf tiC4 USTAR_FORMAT [] = .ok blockC4 ∧
    FromBuf (blockC4.set 0 107) = .error .invalidHeader := by
  have hok : ToBuf tiC4 USTAR_FORMAT [] = .ok blockC4 := by
    rw [blockC4]
    exact ok_of_isOkE _ (by decide)
  refine ⟨hok, ?_⟩
  exact C4_bitflip_invalid tiC4 [] blockC4 (by decide) (by decide) (by decide)
    (by decide) (by decide) hok 0 (by decide) (by decide) 107
    (by decide) (by decide)

end Gtar
